import Mathlib

/-!
# Verification of the gatech-enrollment asynchronous client core

A shallow embedding, in Lean 4, of the request-serving core of the
`gatech-enrollment` repository:

* the CSV record codec (`recordsToCSV`, `parseCSVToRecords`, `parseCSVLine`)
  shared by both client variants (`client/src/services/api.ts`, the two
  variants appear as `src/unnamed/part_001` and `src/unnamed/part_002`;
  their codec code is identical);
* the two polling-client loops `fetchEnrollmentData` (variant 1 from
  `part_001`, variant 2 from `part_002`), embedded as deterministic
  functions of an abstract server environment that also produce the ordered
  trace of side effects (sleeps, status reads, progress callbacks);
* the SQS processing-queue and Lambda event-source configuration from
  `infra/src/enrollment-stack.ts`.

JavaScript strings are modelled as `List Char` wrapped in Lean `String`;
JavaScript numbers are modelled as rationals (`ℚ`), with `NaN` as a separate
constructor of the `Value` type.  `parseFloat` is modelled on sign /
integer-digits / fraction-digits literals (the forms the data can contain;
exponent notation, `Infinity` and leading-whitespace skipping - the inputs
are pre-trimmed - are outside the modelled fragment).  Number-to-string
coercion is modelled exactly for integer-valued numbers and for numbers with
a terminating decimal expansion (every finite float64 value in the
non-exponent printing range).
-/

/-! ## JavaScript string and number primitives -/

/-- Character list underlying a JS string. -/
abbrev Chars := List Char

/-- The ten ASCII decimal digits. -/
def digitChars : Chars := ['0', '1', '2', '3', '4', '5', '6', '7', '8', '9']

/-- JS decimal-digit test (`0`-`9`), as used by `parseFloat`. -/
def isDig (c : Char) : Bool := digitChars.contains c

/-- Numeric value of a digit run, most significant first. -/
def digitsToNat (ds : Chars) : Nat := ds.foldl (fun a c => 10 * a + (c.toNat - 48)) 0

/-- Digit printer with explicit fuel (any `fuel > n` is enough, since a
number has no more digits than its value). -/
def natToDigitsAux : Nat → Nat → Chars
  | 0, _ => []
  | fuel + 1, n =>
      if n < 10 then [Nat.digitChar n]
      else natToDigitsAux fuel (n / 10) ++ [Nat.digitChar (n % 10)]

/-- Decimal digits of a natural number, models JS `String(n)` for `n : ℕ`. -/
def natToDigits (n : Nat) : Chars := natToDigitsAux (n + 1) n

/-- Models JS `String(i)` for an integer-valued number. -/
def intToChars (i : Int) : Chars :=
  if i < 0 then '-' :: natToDigits i.natAbs else natToDigits i.natAbs

/-- Least positive `k ≤ 64` with `d ∣ 10 ^ k`, the number of decimal places of
a terminating decimal expansion (exists for every finite float64 fraction). -/
def decPow (d : Nat) : Option Nat :=
  (List.range 65).find? (fun k => decide (0 < k) && decide (d ∣ 10 ^ k))

/-- Exactly `k` decimal digits of `m < 10 ^ k`, zero padded, most significant
first. -/
def padDigits : Nat → Nat → Chars
  | 0, _ => []
  | k + 1, m => Nat.digitChar (m / 10 ^ k % 10) :: padDigits k m

/-- Models JS number-to-string coercion `String(q)`: exact for integers and
terminating decimals; a non-terminating rational (never a float64 value)
falls back to its truncated integer part. -/
def jsNumToChars (q : ℚ) : Chars :=
  if q.den = 1 then intToChars q.num
  else
    match decPow q.den with
    | some k =>
        let m := q.num.natAbs * 10 ^ k / q.den
        (if q.num < 0 then ['-'] else []) ++
          natToDigits (m / 10 ^ k) ++ '.' :: padDigits k (m % 10 ^ k)
    | none => intToChars (q.num / (q.den : Int))

/-- Unsigned part of JS `parseFloat`: longest `digits [. digits]` prefix,
`none` when no digit is found (JS `NaN`). -/
def parseUnsigned (cs : Chars) : Option ℚ :=
  let ip := cs.takeWhile isDig
  let rest := cs.dropWhile isDig
  if rest.head? = some '.' then
    let fp := rest.tail.takeWhile isDig
    if ip.isEmpty && fp.isEmpty then none
    else some ((digitsToNat ip : ℚ) + (digitsToNat fp : ℚ) / (10 : ℚ) ^ fp.length)
  else if ip.isEmpty then none else some (digitsToNat ip : ℚ)

/-- Models JS `parseFloat` on the (pre-trimmed) strings the codec feeds it:
optional sign, then digits with an optional fraction; `none` models `NaN`. -/
def parseFloatQ (s : String) : Option ℚ :=
  match s.data with
  | [] => none
  | c :: t =>
      if c = '-' then (parseUnsigned t).map (fun q => -q)
      else if c = '+' then parseUnsigned t
      else parseUnsigned (c :: t)

/-- Models JS `String.prototype.trim` (drop whitespace from both ends). -/
def trimChars (cs : Chars) : Chars :=
  ((cs.dropWhile Char.isWhitespace).reverse.dropWhile Char.isWhitespace).reverse

/-- Models JS `String.prototype.trim` at the `String` level. -/
def jsTrim (s : String) : String := ⟨trimChars s.data⟩

/-- Models JS `s.split(sep)` for a one-character separator. -/
def splitCharC (sep : Char) : Chars → List Chars
  | [] => [[]]
  | c :: rest =>
      if c = sep then [] :: splitCharC sep rest
      else
        match splitCharC sep rest with
        | r :: rs => (c :: r) :: rs
        | [] => [[c]]

/-- Models JS `Array.prototype.join(sep)` for a one-character separator. -/
def joinSepC (sep : Char) : List Chars → Chars
  | [] => []
  | [p] => p
  | p :: q :: ps => p ++ sep :: joinSepC sep (q :: ps)

/-- Models JS `value.replace(/"/g, '""')`: double every quote character. -/
def escQuotes : Chars → Chars
  | [] => []
  | c :: rest => if c = '"' then '"' :: '"' :: escQuotes rest else c :: escQuotes rest

/-! ## The record codec (from `client/src/services/api.ts`)

`parseCSVLine` is the character loop of the source: it scans the line with an
`inQuotes` flag, a current field and the fields produced so far.  The
imperative loop appends characters to `current` and pushes `current` on an
unquoted comma; the recursion below builds the same list front-to-back, with
`consHead` playing the role of `current += char`. -/

/-- Prepend a character to the first field of a field list. -/
def consHead (c : Char) : List Chars → List Chars
  | f :: fs => (c :: f) :: fs
  | [] => [[c]]

/-- The scanning loop of `parseCSVLine` (source `part_001` lines 356-381):
an escaped (doubled) quote inside quotes consumes two characters and emits
one quote (the source's `line[i + 1]` lookahead plus `i++`), a lone quote
toggles the `inQuotes` flag, and a comma splits only outside quotes. -/
def pclAux : Chars → Bool → List Chars
  | [], _ => [[]]
  | c :: rest, inQ =>
      if c = '"' then
        if inQ then
          match rest with
          | d :: rest' =>
              if d = '"' then consHead '"' (pclAux rest' true)
              else pclAux (d :: rest') false
          | [] => pclAux [] false
        else pclAux rest true
      else if c = ',' then
        if inQ then consHead ',' (pclAux rest inQ) else [] :: pclAux rest false
      else consHead c (pclAux rest inQ)

/-- `parseCSVLine` — parse a single CSV line handling quoted values. -/
def parseCSVLine (line : String) : List String :=
  (pclAux line.data false).map (fun cs => (⟨cs⟩ : String))

/-- A JS value as it occurs in an enrollment record: a string, a number, the
number `NaN`, or `null`. -/
inductive Value where
  | vstr (s : String)
  | vnum (q : ℚ)
  | vnan
  | vnull
deriving DecidableEq

/-- A JS record (`Record<string, unknown>`): ordered own-property list.
Property keys of real records are unique (`Object.keys` never repeats). -/
abbrev JRecord := List (String × Value)

/-- Models JS property access `obj[key]` on the ordered property list. -/
def jsIndex {β : Type} : List (String × β) → String → Option β
  | [], _ => none
  | (k, v) :: r, h => if k = h then some v else jsIndex r h

/-- One emitted CSV cell of `recordsToCSV` (source lines 256-264): a string
containing a comma or quote is wrapped in quotes with inner quotes doubled;
any other value is `value ?? ''` coerced to a string (`null`/missing → empty,
numbers via `String()`, `NaN` → `"NaN"`). -/
def encodeCell (o : Option Value) : Chars :=
  match o with
  | some (.vstr s) =>
      if s.data.contains ',' || s.data.contains '"'
      then '"' :: escQuotes s.data ++ ['"']
      else s.data
  | some (.vnum q) => jsNumToChars q
  | some .vnan => ['N', 'a', 'N']
  | some .vnull => []
  | none => []

/-- One emitted CSV row: the record's cell per header, joined by commas
(source line 256-264, the body of `records.map`). -/
def encodedRow (headers : List String) (record : JRecord) : Chars :=
  joinSepC ',' (headers.map (fun h => encodeCell (jsIndex record h)))

/-- `recordsToCSV` — converts enrollment records to CSV format (source
`part_002` lines 247-269; identical in `part_001`).  Headers are the keys of
the first record; one row per record; rows joined by `\n`. -/
def recordsToCSV (records : List JRecord) : String :=
  match records with
  | [] => ""
  | firstRecord :: _ =>
      let headers := firstRecord.map Prod.fst
      ⟨joinSepC '\n'
        (joinSepC ',' (headers.map String.data) :: records.map (encodedRow headers))⟩

/-- The CSV-label → field-name map of `parseCSVToRecords` (source lines
301-323). -/
def headerMap : List (String × String) :=
  [("Term", "term"), ("Subject", "subject"), ("Course", "course"),
   ("CRN", "crn"), ("Section", "section"), ("Start Time", "startTime"),
   ("End Time", "endTime"), ("Days", "days"), ("Building", "building"),
   ("Room", "room"), ("Primary Instructor(s)", "primaryInstructors"),
   ("Additional Instructor(s)", "additionalInstructors"),
   ("Enrollment Actual", "enrollmentActual"),
   ("Enrollment Maximum", "enrollmentMaximum"),
   ("Enrollment Seats Available", "enrollmentSeatsAvailable"),
   ("Waitlist Capacity", "waitlistCapacity"),
   ("Waitlist Actual", "waitlistActual"),
   ("Waitlist Seats Available", "waitlistSeatsAvailable"),
   ("Building Code", "buildingCode"), ("Room Capacity", "roomCapacity"),
   ("Loss", "loss")]

/-- The numerically-converted field names of `parseCSVToRecords` (source
lines 338-340). -/
def numericFields : List String :=
  ["enrollmentActual", "enrollmentMaximum", "enrollmentSeatsAvailable",
   "waitlistCapacity", "waitlistActual", "waitlistSeatsAvailable",
   "roomCapacity", "loss"]

/-- Decoding of one cell (body of the `headers.forEach` at source lines
333-345): trim the cell, map the label to its field name, then a numeric
field becomes `parseFloat(value)` (empty → `null`, unparseable → `NaN`) and
any other field passes through as text (`value || ''`). -/
def decodeField (header : String) (rawValue : String) : String × Value :=
  let value := jsTrim rawValue
  let fieldName := (jsIndex headerMap header).getD header
  if numericFields.contains fieldName then
    (fieldName,
      if value = "" then Value.vnull
      else
        match parseFloatQ value with
        | some q => Value.vnum q
        | none => Value.vnan)
  else (fieldName, Value.vstr value)

/-- Decoding of one well-formed row (source lines 332-347).  The JS loop
assigns `record[fieldName]` in header order; with distinct field names
(always the case for real headers) that is exactly this ordered property
list. -/
def decodeRow (headers : List String) (values : List String) : JRecord :=
  (headers.zip values).map (fun hv => decodeField hv.1 hv.2)

/-- `parseCSVToRecords` — parse CSV data to enrollment records (source
`part_001` lines 293-351).  Trims the payload, splits into lines, reads the
header (plain comma split, labels trimmed), then decodes every non-empty
data row whose parsed column count matches the header. -/
def parseCSVToRecords (csvData : String) : List JRecord :=
  let lines := (splitCharC '\n' (jsTrim csvData).data).map (fun cs => (⟨cs⟩ : String))
  match lines with
  | [] => []
  | l0 :: rest =>
      if rest.isEmpty || l0 = "" then []
      else
        let headers := (splitCharC ',' l0.data).map (fun cs => jsTrim ⟨cs⟩)
        rest.foldl (fun records line =>
          if line = "" then records
          else
            let values := parseCSVLine line
            if values.length ≠ headers.length then records
            else records ++ [decodeRow headers values]) []

/-! ## Auxiliary notions about the codec, used to state the claims -/

/-- The row filter of `parseCSVToRecords`'s loop: a data row is kept exactly
when it is non-empty and its parsed column count matches the header. -/
def keepRow (headers : List String) (line : String) : Bool :=
  (line != "") && ((parseCSVLine line).length == headers.length)

/-- The unescaped content of a cell: what the cell denotes before quoting is
applied (string content, printed number, `"NaN"`, empty for null/missing). -/
def rawCell (o : Option Value) : Chars :=
  match o with
  | some (.vstr s) => s.data
  | some (.vnum q) => jsNumToChars q
  | some .vnan => ['N', 'a', 'N']
  | some .vnull => []
  | none => []

/-- The encoder's quoting rule on raw cell content: wrap in quotes, doubling
inner quotes, exactly when the content holds the delimiter or the quote. -/
def escapeIfNeeded (v : Chars) : Chars :=
  if v.contains ',' || v.contains '"' then '"' :: escQuotes v ++ ['"'] else v

/-- Append a prefix to the first field of a field list (spans a quoted
field's contribution when `pclAux` resumes after the closing quote). -/
def prependHead (v : Chars) : List Chars → List Chars
  | f :: fs => (v ++ f) :: fs
  | [] => [v]

/-- A field name that survives the codec's header handling: non-empty,
trim-invariant, free of the delimiter and of line breaks, and not one of the
CSV header labels that `parseCSVToRecords` renames. -/
def goodKey (k : String) : Bool :=
  (k != "") && (trimChars k.data == k.data) && !(k.data.contains ',') &&
    !(k.data.contains '\n') && (jsIndex headerMap k == none)

/-- A value of the shape the codec round-trips on field `k`: numeric fields
hold a number with a terminating decimal expansion (an integer, or a
fraction whose denominator divides a power of ten — every float64 value the
program prints in plain decimal notation), `NaN` or `null`; any other field
holds a trim-invariant, line-break-free string. -/
def goodVal (k : String) (v : Value) : Bool :=
  if numericFields.contains k then
    match v with
    | .vstr _ => false
    | .vnum q => q.den == 1 || (decPow q.den).isSome
    | .vnan => true
    | .vnull => true
  else
    match v with
    | .vstr s => (trimChars s.data == s.data) && !(s.data.contains '\n')
    | .vnum _ => false
    | .vnan => false
    | .vnull => false

/-- A full `EnrollmentRecord` whose `term` field carries leading whitespace
(a legal string value): the decoder's per-cell `trim` loses that
whitespace, so the codec round trip fails on it. -/
def untrimmedRecord : JRecord :=
  [("term", .vstr " Fall 2025"), ("subject", .vstr "CS"),
   ("course", .vstr "CS 1332"), ("crn", .vstr "86444"), ("section", .vstr "A"),
   ("startTime", .vstr "08:25"), ("endTime", .vstr "09:15"),
   ("days", .vstr "MWF"), ("building", .vstr "College of Computing"),
   ("room", .vstr "16"), ("primaryInstructors", .vstr "Mary Hudachek-Buswell"),
   ("additionalInstructors", .vstr ""), ("enrollmentActual", .vnum 45),
   ("enrollmentMaximum", .vnum 50), ("enrollmentSeatsAvailable", .vnum 5),
   ("waitlistCapacity", .vnum 10), ("waitlistActual", .vnum 0),
   ("waitlistSeatsAvailable", .vnum 10), ("buildingCode", .vstr "50"),
   ("roomCapacity", .vnum 240), ("loss", .vnull)]

/-- A record with delimiter- and quote-bearing strings, a null numeric field
and a `NaN`, exercising the round-trip theorem's hypotheses. -/
def quotedRecord : JRecord :=
  [("term", .vstr "Fall 2025"), ("building", .vstr "Clough, Commons"),
   ("enrollmentActual", .vnum 45), ("loss", .vnull)]

/-- A second record over the same fields (empty string, negative fractional
number — the loss ratio `-13/16` prints as `-0.8125` and re-parses exactly). -/
def quotedRecord2 : JRecord :=
  [("term", .vstr "Spring \"25\""), ("building", .vstr ""),
   ("enrollmentActual", .vnull), ("loss", .vnum ⟨-13, 16, by decide, by decide⟩)]

/-! ## The polling client (`fetchEnrollmentData`, both variants)

The async loop is embedded as a deterministic function of an abstract server
environment: `statuses i` is the response of the `i`-th (zero-based) status
read, `download` resolves a `download_url` fetch (variant 1 only).  The
function returns the ordered trace of observable effects (sleeps, status
reads, progress-callback invocations) together with the loop's outcome,
`Except.error msg` modelling a rejected promise carrying `Error(msg)`. -/

/-- Polling configuration: `POLL_INTERVAL_MS = 2000` (both variants). -/
def POLL_INTERVAL_MS : Nat := 2000

/-- Polling configuration: `MAX_POLL_ATTEMPTS = 150` (both variants). -/
def MAX_POLL_ATTEMPTS : Nat := 150

/-- The four job states of the protocol. -/
inductive JobStatus where
  | pending
  | processing
  | completed
  | failed
deriving DecidableEq

/-- One observable effect of the polling client. -/
inductive PollEvent where
  | sleep (ms : Nat)
  | statusRead (i : Nat)
  | progressCb (p : ℚ) (msg : String)
deriving DecidableEq

/-- Models JS `x || d` on an optional string: `undefined`/`null` and the
empty string are falsy. -/
def jsOrString (o : Option String) (d : String) : String :=
  match o with
  | some m => if m = "" then d else m
  | none => d

/-- `JobStatusResponse` of variant 1 (`part_001` lines 17-24). -/
structure StatusResponseA where
  status : JobStatus
  progress : Option ℚ
  csv_data : Option String
  download_url : Option String
  error_message : Option String

/-- `EnrollmentResponse` as assembled by variant 1's completed branch. -/
structure EnrollmentResponseA where
  success : Bool
  data : List JRecord
  fileName : String
  message : String
deriving DecidableEq

/-- The `while (attempts < MAX_POLL_ATTEMPTS)` loop of variant 1
(`part_001` lines 94-141), `fuel = MAX_POLL_ATTEMPTS - attempts` iterations
remaining; on fuel exhaustion the code after the loop throws the timeout
error. -/
def pollLoopA (statuses : Nat → StatusResponseA) (download : String → Option String) :
    Nat → Nat → List PollEvent × Except String EnrollmentResponseA
  | 0, _ =>
      ([], .error "Request timed out. Please try again with fewer terms or a more specific filter.")
  | fuel + 1, attempts =>
      let attempts' := attempts + 1
      let resp := statuses attempts
      let progress0 := resp.progress.getD 0
      let progress := if progress0 = 0 then 10 else progress0
      let evs := [PollEvent.sleep POLL_INTERVAL_MS, PollEvent.statusRead attempts,
        PollEvent.progressCb progress
          ("Processing... (" ++ Nat.repr (attempts' * 2) ++ "s elapsed)")]
      match resp.status with
      | .completed =>
          let evs := evs ++ [PollEvent.progressCb 100 "Complete!"]
          match resp.csv_data with
          | some d =>
              (evs, .ok ⟨true, parseCSVToRecords d, "enrollment_data.csv",
                "Data retrieved successfully"⟩)
          | none =>
              match resp.download_url with
              | some u =>
                  match download u with
                  | some csvData =>
                      (evs, .ok ⟨true, parseCSVToRecords csvData, "enrollment_data.csv",
                        "Data downloaded successfully"⟩)
                  | none => (evs, .error "Failed to download CSV file")
              | none => (evs, .error "Job completed but no data returned")
      | .failed => (evs, .error (jsOrString resp.error_message "Job failed"))
      | _ =>
          let next := pollLoopA statuses download fuel attempts'
          (evs ++ next.1, next.2)

/-- `fetchEnrollmentData` of variant 1 (`part_001` lines 77-146): submit,
then poll.  `submitJobId` is the `job_id` of the submit response. -/
def fetchEnrollmentDataA (submitJobId : Option String)
    (statuses : Nat → StatusResponseA) (download : String → Option String) :
    List PollEvent × Except String EnrollmentResponseA :=
  let evs := [PollEvent.progressCb 0 "Submitting request..."]
  match submitJobId with
  | none => (evs, .error "No job ID returned from server")
  | some _ =>
      let evs := evs ++ [PollEvent.progressCb 5 "Request submitted. Processing enrollment data..."]
      let next := pollLoopA statuses download MAX_POLL_ATTEMPTS 0
      (evs ++ next.1, next.2)

/-- `JobStatusResponse` of variant 2 (`part_002` lines 17-23); the result
payload is opaque to the loop. -/
structure StatusResponseB (α : Type) where
  status : JobStatus
  progress : Option ℚ
  message : Option String
  result : Option α

/-- The polling loop of variant 2 (`part_002` lines 98-122). -/
def pollLoopB {α : Type} (statuses : Nat → StatusResponseB α) :
    Nat → Nat → List PollEvent × Except String α
  | 0, _ =>
      ([], .error "Request timed out. Please try again with fewer terms or a more specific filter.")
  | fuel + 1, attempts =>
      let attempts' := attempts + 1
      let resp := statuses attempts
      let progress := resp.progress.getD (min (10 + (attempts' : ℚ) * 2) 90)
      let evs := [PollEvent.sleep POLL_INTERVAL_MS, PollEvent.statusRead attempts,
        PollEvent.progressCb progress
          (jsOrString resp.message
            ("Processing... (" ++ Nat.repr (attempts' * 2) ++ "s elapsed)"))]
      match resp.status with
      | .completed =>
          let evs := evs ++ [PollEvent.progressCb 100 "Complete!"]
          match resp.result with
          | some r => (evs, .ok r)
          | none => (evs, .error "Job completed but no result returned")
      | .failed => (evs, .error (jsOrString resp.message "Job failed"))
      | _ =>
          let next := pollLoopB statuses fuel attempts'
          (evs ++ next.1, next.2)

/-- `fetchEnrollmentData` of variant 2 (`part_002` lines 76-127):
`fastPath` models a submit response that already embeds `data`/`success`,
`submitJobId` the `jobId` field. -/
def fetchEnrollmentDataB {α : Type} (fastPath : Option α) (submitJobId : Option String)
    (statuses : Nat → StatusResponseB α) : List PollEvent × Except String α :=
  let evs := [PollEvent.progressCb 0 "Submitting request..."]
  match fastPath with
  | some r => (evs, .ok r)
  | none =>
      match submitJobId with
      | none => (evs, .error "No job ID returned from server")
      | some _ =>
          let evs := evs ++
            [PollEvent.progressCb 5 "Request submitted. Processing enrollment data..."]
          let next := pollLoopB statuses MAX_POLL_ATTEMPTS 0
          (evs ++ next.1, next.2)

/-- Progress values passed to the callback, in invocation order. -/
def progressValues (evs : List PollEvent) : List ℚ :=
  evs.filterMap (fun e => match e with | .progressCb p _ => some p | _ => none)

/-- Whether an event is a status read. -/
def isStatusRead (e : PollEvent) : Bool :=
  match e with | .statusRead _ => true | _ => false

/-- Whether an event is a sleep or a status read. -/
def isSleepOrRead (e : PollEvent) : Bool :=
  match e with | .sleep _ => true | .statusRead _ => true | _ => false

/-- Whether an event is a progress-callback invocation. -/
def isProgressCb (e : PollEvent) : Bool :=
  match e with | .progressCb _ _ => true | _ => false

/-! ## Queue and event-source configuration (`infra/src/enrollment-stack.ts`) -/

/-- The dead-letter queue of `createProcessingQueue` (lines 502-507). -/
structure DeadLetterQueueProps where
  queueName : String
  retentionPeriodDays : Nat
deriving DecidableEq

/-- The `deadLetterQueue` redrive setting of the main queue (lines 513-516). -/
structure RedrivePolicy where
  queue : DeadLetterQueueProps
  maxReceiveCount : Nat
deriving DecidableEq

/-- The SQS queue properties set by `createProcessingQueue` (lines 509-519). -/
structure QueueProps where
  queueName : String
  visibilityTimeoutMinutes : Nat
  retentionPeriodDays : Nat
  deadLetterQueue : Option RedrivePolicy
  receiveMessageWaitTimeSeconds : Nat
deriving DecidableEq

/-- `createProcessingQueue` (source lines 501-522): DLQ plus main queue with
`maxReceiveCount: 3`. -/
def createProcessingQueue (environment : String) : QueueProps :=
  let deadLetterQueue : DeadLetterQueueProps :=
    ⟨"gatech-enrollment-dlq-" ++ environment, 14⟩
  ⟨"gatech-enrollment-processing-" ++ environment, 15, 4,
    some ⟨deadLetterQueue, 3⟩, 20⟩

/-- The `SqsEventSource` properties of the data-processing Lambda (source
lines 627-632). -/
structure SqsEventSourceProps where
  batchSize : Nat
  maxBatchingWindowSeconds : Nat
  reportBatchItemFailures : Bool
deriving DecidableEq

/-- The event source attached to the data-processing function:
`batchSize: 1`, five-second batching window, batch item failures reported. -/
def dataProcessingEventSource : SqsEventSourceProps := ⟨1, 5, true⟩

/-! ## Concrete server environments used as witnesses and counterexamples -/

/-- A server whose reported progress goes 50, then 20, then completes with an
inline (empty) CSV payload: a legal environment on which the progress
callback sequence is not monotone. -/
def nonMonotoneStatuses : Nat → StatusResponseA := fun i =>
  if i = 0 then ⟨.processing, some 50, none, none, none⟩
  else if i = 1 then ⟨.processing, some 20, none, none, none⟩
  else ⟨.completed, some 20, some "", none, none⟩

/-- A job that never leaves `processing` (variant-2 response shape). -/
def processingForeverB : Nat → StatusResponseB Unit := fun _ =>
  ⟨.processing, none, none, none⟩

/-- A job that reports `failed` with a stored error message, variant 1. -/
def failedNowA : Nat → StatusResponseA := fun _ =>
  ⟨.failed, none, none, none, some "upstream data source unavailable"⟩

/-- A job that reports `failed` with a stored error message, variant 2. -/
def failedNowB : Nat → StatusResponseB Unit := fun _ =>
  ⟨.failed, none, some "upstream data source unavailable", none⟩

/-- A job that reports `failed` with no stored message, variant 2. -/
def failedSilentlyB : Nat → StatusResponseB Unit := fun _ =>
  ⟨.failed, none, none, none⟩

/-- A processing job with constant in-range progress, variant 1. -/
def steadyProgressA : Nat → StatusResponseA := fun _ =>
  ⟨.processing, some 42, none, none, none⟩

/-- A processing job with constant in-range progress, variant 2. -/
def steadyProgressB : Nat → StatusResponseB Unit := fun _ =>
  ⟨.processing, some 42, none, none⟩

/-! # Lemmas and claim theorems -/

set_option maxRecDepth 10000

/-! ## List scaffolding -/

theorem takeWhile_all {α : Type} (p : α → Bool) :
    ∀ l : List α, (∀ a ∈ l, p a = true) → l.takeWhile p = l := by
  intro l h
  induction l with
  | nil => rfl
  | cons a t ih =>
      rw [List.takeWhile_cons, h a (List.mem_cons_self a t)]
      exact congrArg _ (ih fun b hb => h b (List.mem_cons_of_mem a hb))

theorem dropWhile_all {α : Type} (p : α → Bool) :
    ∀ l : List α, (∀ a ∈ l, p a = true) → l.dropWhile p = [] := by
  intro l h
  induction l with
  | nil => rfl
  | cons a t ih =>
      rw [List.dropWhile_cons, h a (List.mem_cons_self a t)]
      exact if_pos rfl ▸ ih fun b hb => h b (List.mem_cons_of_mem a hb)

theorem dropWhile_head_false {α : Type} (p : α → Bool) :
    ∀ l : List α, (∀ a, l.head? = some a → p a = false) → l.dropWhile p = l := by
  intro l h
  cases l with
  | nil => rfl
  | cons a t => rw [List.dropWhile_cons, h a rfl]; simp

/-! ## Decimal digits and the `parseFloat` model -/

theorem digitChar_mem (n : Nat) (h : n < 10) : Nat.digitChar n ∈ digitChars := by
  interval_cases n <;> decide

theorem digit_facts (c : Char) (h : c ∈ digitChars) :
    isDig c = true ∧ c ≠ ',' ∧ c ≠ '"' ∧ c ≠ '\n' ∧ c ≠ '-' ∧ c ≠ '+' ∧
      c ≠ '.' ∧ c.isWhitespace = false := by
  have h' : c ∈ (['0', '1', '2', '3', '4', '5', '6', '7', '8', '9'] : List Char) := h
  fin_cases h' <;> decide

theorem digitChar_toNat (n : Nat) (h : n < 10) : (Nat.digitChar n).toNat - 48 = n := by
  interval_cases n <;> decide

theorem digitsToNat_append_digit (ds : Chars) (c : Char) :
    digitsToNat (ds ++ [c]) = 10 * digitsToNat ds + (c.toNat - 48) := by
  simp [digitsToNat, List.foldl_append]

theorem natToDigitsAux_mem :
    ∀ fuel n, n < fuel → ∀ c ∈ natToDigitsAux fuel n, c ∈ digitChars := by
  intro fuel
  induction fuel with
  | zero => omega
  | succ f ih =>
      intro n hn c hc
      rw [natToDigitsAux] at hc
      by_cases h10 : n < 10
      · rw [if_pos h10] at hc
        simp only [List.mem_singleton] at hc
        exact hc ▸ digitChar_mem n h10
      · rw [if_neg h10] at hc
        rcases List.mem_append.1 hc with h | h
        · exact ih (n / 10) (by omega) c h
        · simp only [List.mem_singleton] at h
          exact h ▸ digitChar_mem _ (Nat.mod_lt _ (by omega))

theorem natToDigitsAux_ne_nil : ∀ fuel n, n < fuel → natToDigitsAux fuel n ≠ [] := by
  intro fuel
  cases fuel with
  | zero => omega
  | succ f =>
      intro n _
      rw [natToDigitsAux]
      by_cases h10 : n < 10
      · rw [if_pos h10]; simp
      · rw [if_neg h10]; simp

theorem digitsToNat_natToDigitsAux :
    ∀ fuel n, n < fuel → digitsToNat (natToDigitsAux fuel n) = n := by
  intro fuel
  induction fuel with
  | zero => omega
  | succ f ih =>
      intro n hn
      rw [natToDigitsAux]
      by_cases h10 : n < 10
      · rw [if_pos h10]
        have : digitsToNat [Nat.digitChar n] = (Nat.digitChar n).toNat - 48 := by
          simp [digitsToNat]
        rw [this, digitChar_toNat n h10]
      · rw [if_neg h10, digitsToNat_append_digit, ih (n / 10) (by omega),
          digitChar_toNat _ (Nat.mod_lt _ (by omega))]
        omega

theorem natToDigits_mem (n : Nat) : ∀ c ∈ natToDigits n, c ∈ digitChars :=
  natToDigitsAux_mem (n + 1) n (Nat.lt_succ_self n)

theorem natToDigits_ne_nil (n : Nat) : natToDigits n ≠ [] :=
  natToDigitsAux_ne_nil (n + 1) n (Nat.lt_succ_self n)

theorem digitsToNat_natToDigits (n : Nat) : digitsToNat (natToDigits n) = n :=
  digitsToNat_natToDigitsAux (n + 1) n (Nat.lt_succ_self n)

theorem parseUnsigned_digits (ds : Chars) (hne : ds ≠ [])
    (hd : ∀ c ∈ ds, c ∈ digitChars) :
    parseUnsigned ds = some (digitsToNat ds : ℚ) := by
  have hdig : ∀ c ∈ ds, isDig c = true := fun c hc => (digit_facts c (hd c hc)).1
  rw [parseUnsigned]
  simp only [takeWhile_all isDig ds hdig, dropWhile_all isDig ds hdig]
  simp [hne]

theorem parseFloatQ_intToChars (i : Int) : parseFloatQ ⟨intToChars i⟩ = some (i : ℚ) := by
  by_cases hneg : i < 0
  · have : intToChars i = '-' :: natToDigits i.natAbs := by rw [intToChars, if_pos hneg]
    rw [this]
    have h1 : parseFloatQ ⟨'-' :: natToDigits i.natAbs⟩
        = (parseUnsigned (natToDigits i.natAbs)).map (fun q => -q) := rfl
    rw [h1, parseUnsigned_digits _ (natToDigits_ne_nil _) (natToDigits_mem _),
      digitsToNat_natToDigits]
    simp only [Option.map_some']
    congr 1
    push_cast [Int.cast_natAbs]
    rw [abs_of_neg (by exact_mod_cast hneg : (i : ℚ) < 0)]
    ring
  · have hch : intToChars i = natToDigits i.natAbs := by rw [intToChars, if_neg hneg]
    obtain ⟨c, t, hct⟩ : ∃ c t, natToDigits i.natAbs = c :: t := by
      cases h : natToDigits i.natAbs with
      | nil => exact absurd h (natToDigits_ne_nil _)
      | cons c t => exact ⟨c, t, rfl⟩
    have hcmem : c ∈ digitChars := natToDigits_mem i.natAbs c (hct ▸ List.mem_cons_self c t)
    have hfacts := digit_facts c hcmem
    rw [hch, hct]
    have h1 : parseFloatQ ⟨c :: t⟩
        = if c = '-' then (parseUnsigned t).map (fun q => -q)
          else if c = '+' then parseUnsigned t
          else parseUnsigned (c :: t) := rfl
    rw [h1, if_neg hfacts.2.2.2.2.1, if_neg hfacts.2.2.2.2.2.1, ← hct,
      parseUnsigned_digits _ (natToDigits_ne_nil _) (natToDigits_mem _),
      digitsToNat_natToDigits]
    congr 1
    push_cast [Int.cast_natAbs]
    rw [abs_of_nonneg (by exact_mod_cast not_lt.1 hneg : (0 : ℚ) ≤ (i : ℚ))]

theorem jsNumToChars_int (q : ℚ) (h : q.den = 1) : jsNumToChars q = intToChars q.num := by
  rw [jsNumToChars, if_pos h]

theorem parseFloatQ_jsNumToChars (q : ℚ) (h : q.den = 1) :
    parseFloatQ ⟨jsNumToChars q⟩ = some q := by
  rw [jsNumToChars_int q h, parseFloatQ_intToChars]
  congr 1
  have h2 := Rat.num_div_den q
  rw [h] at h2
  simpa using h2

theorem padDigits_mem : ∀ k m, ∀ c ∈ padDigits k m, c ∈ digitChars := by
  intro k
  induction k with
  | zero => intro m c hc; simp [padDigits] at hc
  | succ j ih =>
      intro m c hc
      rw [padDigits] at hc
      rcases List.mem_cons.1 hc with h | h
      · exact h ▸ digitChar_mem _ (Nat.mod_lt _ (by omega))
      · exact ih m c h

theorem intToChars_mem (i : Int) : ∀ c ∈ intToChars i, c ∈ digitChars ∨ c = '-' := by
  intro c hc
  rw [intToChars] at hc
  by_cases hneg : i < 0
  · rw [if_pos hneg] at hc
    rcases List.mem_cons.1 hc with h | h
    · exact Or.inr h
    · exact Or.inl (natToDigits_mem _ c h)
  · rw [if_neg hneg] at hc
    exact Or.inl (natToDigits_mem _ c hc)

theorem jsNumToChars_mem (q : ℚ) :
    ∀ c ∈ jsNumToChars q, c ∈ digitChars ∨ c = '-' ∨ c = '.' := by
  intro c hc
  rw [jsNumToChars] at hc
  by_cases h1 : q.den = 1
  · rw [if_pos h1] at hc
    rcases intToChars_mem q.num c hc with h | h
    · exact Or.inl h
    · exact Or.inr (Or.inl h)
  · rw [if_neg h1] at hc
    rcases hdp : decPow q.den with _ | k
    · rw [hdp] at hc
      rcases intToChars_mem _ c hc with h | h
      · exact Or.inl h
      · exact Or.inr (Or.inl h)
    · rw [hdp] at hc
      simp only [List.mem_append, List.mem_cons] at hc
      rcases hc with (hc | hc) | hc | hc
      · by_cases hs : q.num < 0
        · rw [if_pos hs] at hc
          simp only [List.mem_singleton] at hc
          exact Or.inr (Or.inl hc)
        · rw [if_neg hs] at hc
          simp at hc
      · exact Or.inl (natToDigits_mem _ c hc)
      · exact Or.inr (Or.inr hc)
      · exact Or.inl (padDigits_mem _ _ c hc)

/-! ## The decimal printer inverts `parseFloat` on terminating decimals -/

theorem intToChars_ne_nil (i : Int) : intToChars i ≠ [] := by
  rw [intToChars]
  by_cases hs : i < 0
  · rw [if_pos hs]; simp
  · rw [if_neg hs]; exact natToDigits_ne_nil _

theorem jsNumToChars_ne_nil (q : ℚ) : jsNumToChars q ≠ [] := by
  rw [jsNumToChars]
  by_cases h1 : q.den = 1
  · rw [if_pos h1]; exact intToChars_ne_nil _
  · rw [if_neg h1]
    rcases hdp : decPow q.den with _ | k
    · exact intToChars_ne_nil _
    · intro h
      simp [List.append_eq_nil] at h

theorem takeWhile_append_stop (p : Char → Bool) :
    ∀ (l1 : Chars) (c : Char) (l2 : Chars), (∀ a ∈ l1, p a = true) → p c = false →
      (l1 ++ c :: l2).takeWhile p = l1 ∧ (l1 ++ c :: l2).dropWhile p = c :: l2 := by
  intro l1
  induction l1 with
  | nil =>
      intro c l2 _ hc
      constructor
      · simp [List.takeWhile_cons, hc]
      · simp [List.dropWhile_cons, hc]
  | cons a t ih =>
      intro c l2 h1 hc
      have ha : p a = true := h1 a (List.mem_cons_self a t)
      have ht := ih c l2 (fun x hx => h1 x (List.mem_cons_of_mem a hx)) hc
      constructor
      · simp [List.takeWhile_cons, ha, ht.1]
      · simp [List.dropWhile_cons, ha, ht.2]

theorem padDigits_length : ∀ k m, (padDigits k m).length = k := by
  intro k
  induction k with
  | zero => intro m; rfl
  | succ j ih =>
      intro m
      rw [padDigits, List.length_cons, ih m]

theorem padDigits_succ : ∀ k m,
    padDigits (k + 1) m = padDigits k (m / 10) ++ [Nat.digitChar (m % 10)] := by
  intro k
  induction k with
  | zero =>
      intro m
      simp [padDigits]
  | succ j ih =>
      intro m
      have harg : m / 10 ^ (j + 1) = m / 10 / 10 ^ j := by
        rw [Nat.div_div_eq_div_mul, ← pow_succ']
      rw [padDigits, ih m, padDigits, List.cons_append, harg]

theorem digitsToNat_padDigits : ∀ k m, digitsToNat (padDigits k m) = m % 10 ^ k := by
  intro k
  induction k with
  | zero => intro m; simp [padDigits, digitsToNat, Nat.mod_one]
  | succ j ih =>
      intro m
      rw [padDigits_succ, digitsToNat_append_digit, ih (m / 10),
        digitChar_toNat (m % 10) (by omega)]
      rw [pow_succ', Nat.mod_mul]
      omega

theorem parseUnsigned_digits_frac (ip fp : Chars) (hne : ip ≠ [])
    (hip : ∀ c ∈ ip, c ∈ digitChars) (hfp : ∀ c ∈ fp, c ∈ digitChars) :
    parseUnsigned (ip ++ '.' :: fp)
      = some ((digitsToNat ip : ℚ) + (digitsToNat fp : ℚ) / (10 : ℚ) ^ fp.length) := by
  have hstop := takeWhile_append_stop isDig ip '.' fp
    (fun c hc => (digit_facts c (hip c hc)).1) (by decide)
  have hipe : ip.isEmpty = false := by
    cases ip with
    | nil => exact absurd rfl hne
    | cons a t => rfl
  rw [parseUnsigned]
  simp only [hstop.1, hstop.2, List.head?_cons, List.tail_cons,
    takeWhile_all isDig fp (fun c hc => (digit_facts c (hfp c hc)).1)]
  simp [hipe]

theorem parseUnsigned_decimal (m k : Nat) :
    parseUnsigned (natToDigits (m / 10 ^ k) ++ '.' :: padDigits k (m % 10 ^ k))
      = some ((m : ℚ) / (10 : ℚ) ^ k) := by
  rw [parseUnsigned_digits_frac _ _ (natToDigits_ne_nil _) (natToDigits_mem _)
      (padDigits_mem k _),
    digitsToNat_natToDigits, digitsToNat_padDigits, padDigits_length,
    Nat.mod_mod_of_dvd _ (dvd_refl (10 ^ k))]
  congr 1
  have hdm : 10 ^ k * (m / 10 ^ k) + m % 10 ^ k = m := Nat.div_add_mod m (10 ^ k)
  have hq : ((10 : ℚ) ^ k) * ((m / 10 ^ k : ℕ) : ℚ) + ((m % 10 ^ k : ℕ) : ℚ) = (m : ℚ) := by
    exact_mod_cast congrArg (fun n : ℕ => (n : ℚ)) hdm
  have h10 : ((10 : ℚ) ^ k) ≠ 0 := by positivity
  field_simp
  linarith

theorem parseFloatQ_jsNumToChars_frac (q : ℚ) (h1 : q.den ≠ 1) (k : Nat)
    (hk : decPow q.den = some k) :
    parseFloatQ ⟨jsNumToChars q⟩ = some q := by
  rw [decPow] at hk
  have hfind := List.find?_some hk
  simp only [Bool.and_eq_true, decide_eq_true_eq] at hfind
  have hdvd : q.den ∣ 10 ^ k := hfind.2
  have hden0 : ((q.den : ℚ)) ≠ 0 := by exact_mod_cast q.den_nz
  have hmden : (q.num.natAbs * 10 ^ k / q.den) * q.den = q.num.natAbs * 10 ^ k :=
    Nat.div_mul_cancel (Dvd.dvd.mul_left hdvd _)
  have hjs : jsNumToChars q
      = (if q.num < 0 then ['-'] else []) ++
        (natToDigits ((q.num.natAbs * 10 ^ k / q.den) / 10 ^ k) ++
          '.' :: padDigits k ((q.num.natAbs * 10 ^ k / q.den) % 10 ^ k)) := by
    rw [jsNumToChars, if_neg h1, decPow]
    simp only [hk]
    rw [List.append_assoc]
  have h10 : ((10 : ℚ) ^ k) ≠ 0 := by positivity
  have hmq : ((q.num.natAbs * 10 ^ k / q.den : ℕ) : ℚ) / (10 : ℚ) ^ k
      = ((q.num.natAbs : ℚ)) / ((q.den : ℚ)) := by
    rw [div_eq_div_iff h10 hden0]
    exact_mod_cast congrArg (fun n : ℕ => (n : ℚ)) hmden
  rw [hjs]
  by_cases hneg : q.num < 0
  · rw [if_pos hneg]
    have hpf : parseFloatQ ⟨'-' :: (natToDigits ((q.num.natAbs * 10 ^ k / q.den) / 10 ^ k) ++
        '.' :: padDigits k ((q.num.natAbs * 10 ^ k / q.den) % 10 ^ k))⟩
        = (parseUnsigned (natToDigits ((q.num.natAbs * 10 ^ k / q.den) / 10 ^ k) ++
            '.' :: padDigits k ((q.num.natAbs * 10 ^ k / q.den) % 10 ^ k))).map
            (fun x => -x) := rfl
    rw [show (['-'] ++ (natToDigits ((q.num.natAbs * 10 ^ k / q.den) / 10 ^ k) ++
        '.' :: padDigits k ((q.num.natAbs * 10 ^ k / q.den) % 10 ^ k)))
        = '-' :: (natToDigits ((q.num.natAbs * 10 ^ k / q.den) / 10 ^ k) ++
          '.' :: padDigits k ((q.num.natAbs * 10 ^ k / q.den) % 10 ^ k)) from rfl]
    rw [hpf, parseUnsigned_decimal, hmq]
    simp only [Option.map_some']
    congr 1
    push_cast [Int.cast_natAbs]
    rw [abs_of_neg (show ((q.num : ℚ)) < 0 by exact_mod_cast hneg), neg_div, neg_neg]
    exact Rat.num_div_den q
  · rw [if_neg hneg, List.nil_append]
    obtain ⟨c, t, hct⟩ : ∃ c t,
        natToDigits ((q.num.natAbs * 10 ^ k / q.den) / 10 ^ k) = c :: t := by
      cases h : natToDigits ((q.num.natAbs * 10 ^ k / q.den) / 10 ^ k) with
      | nil => exact absurd h (natToDigits_ne_nil _)
      | cons c t => exact ⟨c, t, rfl⟩
    have hcmem : c ∈ digitChars :=
      natToDigits_mem _ c (hct ▸ List.mem_cons_self c t)
    have hfacts := digit_facts c hcmem
    rw [hct, List.cons_append]
    have hpf : parseFloatQ ⟨c :: (t ++ '.' :: padDigits k
        ((q.num.natAbs * 10 ^ k / q.den) % 10 ^ k))⟩
        = if c = '-' then (parseUnsigned (t ++ '.' :: padDigits k
            ((q.num.natAbs * 10 ^ k / q.den) % 10 ^ k))).map (fun x => -x)
          else if c = '+' then parseUnsigned (t ++ '.' :: padDigits k
            ((q.num.natAbs * 10 ^ k / q.den) % 10 ^ k))
          else parseUnsigned (c :: (t ++ '.' :: padDigits k
            ((q.num.natAbs * 10 ^ k / q.den) % 10 ^ k))) := rfl
    rw [hpf, if_neg hfacts.2.2.2.2.1, if_neg hfacts.2.2.2.2.2.1,
      ← List.cons_append, ← hct, parseUnsigned_decimal, hmq]
    congr 1
    push_cast [Int.cast_natAbs]
    rw [abs_of_nonneg (show (0 : ℚ) ≤ ((q.num : ℚ)) by exact_mod_cast not_lt.1 hneg)]
    exact Rat.num_div_den q

/-- `parseFloat` inverts the number printer on every value `goodVal` admits
in a numeric field: integers and terminating decimals. -/
theorem parseFloatQ_jsNumToChars_dec (q : ℚ)
    (h : q.den = 1 ∨ (decPow q.den).isSome = true) :
    parseFloatQ ⟨jsNumToChars q⟩ = some q := by
  by_cases h1 : q.den = 1
  · exact parseFloatQ_jsNumToChars q h1
  · rcases h with h | h
    · exact absurd h h1
    · rcases hk : decPow q.den with _ | k
      · rw [hk] at h; simp at h
      · exact parseFloatQ_jsNumToChars_frac q h1 k hk

/-! ## The CSV line scanner inverts the encoder's quoting -/

theorem contains_false_iff {α : Type} [BEq α] [LawfulBEq α] (l : List α) (a : α) :
    l.contains a = false ↔ a ∉ l := by
  simp [List.contains]

theorem escQuotes_subset : ∀ (v : Chars) (c : Char), c ∈ escQuotes v → c ∈ v := by
  intro v
  induction v with
  | nil => intro c hc; simp [escQuotes] at hc
  | cons x rest ih =>
      intro c hc
      rw [escQuotes] at hc
      by_cases hx : x = '"'
      · rw [if_pos hx] at hc
        rcases List.mem_cons.1 hc with h | h
        · exact List.mem_cons.2 (Or.inl (h.trans hx.symm))
        · rcases List.mem_cons.1 h with h' | h'
          · exact List.mem_cons.2 (Or.inl (h'.trans hx.symm))
          · exact List.mem_cons.2 (Or.inr (ih c h'))
      · rw [if_neg hx] at hc
        rcases List.mem_cons.1 hc with h | h
        · exact List.mem_cons.2 (Or.inl h)
        · exact List.mem_cons.2 (Or.inr (ih c h))

theorem consHead_ne_nil (d : Char) (l : List Chars) : consHead d l ≠ [] := by
  cases l <;> simp [consHead]

theorem pclAux_quote_true_cons (d : Char) (rest' : Chars) :
    pclAux ('"' :: d :: rest') true =
      if d = '"' then consHead '"' (pclAux rest' true)
      else pclAux (d :: rest') false := rfl

theorem pclAux_quote_true_nil : pclAux ['"'] true = [[]] := rfl

theorem pclAux_quote_false (rest : Chars) :
    pclAux ('"' :: rest) false = pclAux rest true := by
  cases rest <;> rfl

theorem pclAux_comma_true (rest : Chars) :
    pclAux (',' :: rest) true = consHead ',' (pclAux rest true) := by
  cases rest <;> rfl

theorem pclAux_comma_false (rest : Chars) :
    pclAux (',' :: rest) false = [] :: pclAux rest false := by
  cases rest <;> rfl

theorem pclAux_other (c : Char) (rest : Chars) (b : Bool)
    (hq : c ≠ '"') (hc : c ≠ ',') :
    pclAux (c :: rest) b = consHead c (pclAux rest b) := by
  cases rest with
  | nil => rw [pclAux.eq_def]; simp [hq, hc]
  | cons d rest' => rw [pclAux.eq_def]; simp [hq, hc]

theorem pclAux_ne_nil : ∀ (cs : Chars) (b : Bool), pclAux cs b ≠ [] := by
  intro cs
  induction cs with
  | nil => intro b; simp [pclAux]
  | cons c rest ih =>
      intro b
      by_cases hq : c = '"'
      · subst hq
        cases b with
        | false => rw [pclAux_quote_false]; exact ih true
        | true =>
            cases rest with
            | nil => rw [pclAux_quote_true_nil]; simp
            | cons d rest' =>
                rw [pclAux_quote_true_cons]
                by_cases hd : d = '"'
                · rw [if_pos hd]; exact consHead_ne_nil '"' (pclAux rest' true)
                · rw [if_neg hd]; exact ih false
      · by_cases hc : c = ','
        · subst hc
          cases b with
          | true => rw [pclAux_comma_true]; exact consHead_ne_nil ',' (pclAux rest true)
          | false => rw [pclAux_comma_false]; simp
        · rw [pclAux_other c rest b hq hc]
          exact consHead_ne_nil c (pclAux rest b)

theorem prependHead_of_ne_nil (l : List Chars) (h : l ≠ []) : prependHead [] l = l := by
  cases l with
  | nil => exact absurd rfl h
  | cons f fs => simp [prependHead]

theorem consHead_prependHead (c : Char) (v : Chars) (l : List Chars) :
    consHead c (prependHead v l) = prependHead (c :: v) l := by
  cases l <;> simp [prependHead, consHead]

theorem pclAux_raw_last (v : Chars) (hcm : ',' ∉ v) (hqm : '"' ∉ v) :
    pclAux v false = [v] := by
  induction v with
  | nil => simp [pclAux]
  | cons c v' ih =>
      have hq : c ≠ '"' := fun h => hqm (h ▸ List.mem_cons_self c v')
      have hc : c ≠ ',' := fun h => hcm (h ▸ List.mem_cons_self c v')
      rw [pclAux_other c v' false hq hc,
        ih (fun h => hcm (List.mem_cons_of_mem c h)) (fun h => hqm (List.mem_cons_of_mem c h))]
      simp [consHead]

theorem pclAux_raw_cons (v : Chars) (hcm : ',' ∉ v) (hqm : '"' ∉ v) (rest : Chars) :
    pclAux (v ++ ',' :: rest) false = v :: pclAux rest false := by
  induction v with
  | nil => simpa using pclAux_comma_false rest
  | cons c v' ih =>
      have hq : c ≠ '"' := fun h => hqm (h ▸ List.mem_cons_self c v')
      have hc : c ≠ ',' := fun h => hcm (h ▸ List.mem_cons_self c v')
      rw [List.cons_append, pclAux_other c _ false hq hc,
        ih (fun h => hcm (List.mem_cons_of_mem c h)) (fun h => hqm (List.mem_cons_of_mem c h))]
      simp [consHead]

theorem pclAux_escQuotes (v : Chars) :
    ∀ rest : Chars, rest.head? ≠ some '"' →
      pclAux (escQuotes v ++ '"' :: rest) true = prependHead v (pclAux rest false) := by
  induction v with
  | nil =>
      intro rest hrest
      rw [escQuotes, List.nil_append]
      cases rest with
      | nil => rw [pclAux_quote_true_nil]; simp [prependHead, pclAux]
      | cons d rest' =>
          have hd : d ≠ '"' := fun h => hrest (by simp [h])
          rw [pclAux_quote_true_cons, if_neg hd,
            prependHead_of_ne_nil _ (pclAux_ne_nil _ _)]
  | cons c v' ih =>
      intro rest hrest
      rw [escQuotes]
      by_cases hcq : c = '"'
      · rw [if_pos hcq]
        have : ('"' :: '"' :: escQuotes v') ++ '"' :: rest
            = '"' :: '"' :: (escQuotes v' ++ '"' :: rest) := by simp
        rw [this, pclAux_quote_true_cons, if_pos rfl, ih rest hrest,
          consHead_prependHead, hcq]
      · rw [if_neg hcq, List.cons_append]
        by_cases hcc : c = ','
        · rw [hcc, pclAux_comma_true, ih rest hrest, consHead_prependHead]
        · rw [pclAux_other c _ true hcq hcc, ih rest hrest, consHead_prependHead]

theorem pclAux_cell_last (v : Chars) : pclAux (escapeIfNeeded v) false = [v] := by
  rw [escapeIfNeeded]
  by_cases h : (v.contains ',' || v.contains '"') = true
  · rw [if_pos h]
    have hassoc : ('"' :: escQuotes v) ++ ['"']
        = '"' :: (escQuotes v ++ '"' :: ([] : Chars)) := by simp
    rw [hassoc, pclAux_quote_false, pclAux_escQuotes v [] (by simp)]
    simp [pclAux, prependHead]
  · rw [if_neg h]
    simp only [Bool.or_eq_true, not_or, Bool.not_eq_true] at h
    exact pclAux_raw_last v ((contains_false_iff v ',').1 h.1) ((contains_false_iff v '"').1 h.2)

theorem pclAux_cell_cons (v : Chars) (rest : Chars) :
    pclAux (escapeIfNeeded v ++ ',' :: rest) false = v :: pclAux rest false := by
  rw [escapeIfNeeded]
  by_cases h : (v.contains ',' || v.contains '"') = true
  · rw [if_pos h]
    have hassoc : (('"' :: escQuotes v) ++ ['"']) ++ ',' :: rest
        = '"' :: (escQuotes v ++ '"' :: (',' :: rest)) := by simp
    rw [hassoc, pclAux_quote_false,
      pclAux_escQuotes v (',' :: rest) (by simp),
      pclAux_comma_false]
    simp [prependHead]
  · rw [if_neg h]
    simp only [Bool.or_eq_true, not_or, Bool.not_eq_true] at h
    exact pclAux_raw_cons v ((contains_false_iff v ',').1 h.1)
      ((contains_false_iff v '"').1 h.2) rest

theorem pclAux_encoded_fields :
    ∀ cells : List Chars, cells ≠ [] →
      pclAux (joinSepC ',' (cells.map escapeIfNeeded)) false = cells := by
  intro cells
  induction cells with
  | nil => intro h; exact absurd rfl h
  | cons v rest ih =>
      intro _
      cases rest with
      | nil => simpa [joinSepC] using pclAux_cell_last v
      | cons w ws =>
          rw [List.map_cons, List.map_cons, joinSepC, pclAux_cell_cons,
            ← List.map_cons escapeIfNeeded w ws, ih (by simp)]

/-! ## Splitting inverts joining; trim invariance -/

theorem splitCharC_no_sep (sep : Char) :
    ∀ p : Chars, sep ∉ p → splitCharC sep p = [p] := by
  intro p
  induction p with
  | nil => intro _; rfl
  | cons c p' ih =>
      intro h
      have hc : ¬c = sep := fun hcs => h (hcs ▸ List.mem_cons_self c p')
      rw [splitCharC, if_neg hc, ih (fun hm => h (List.mem_cons_of_mem c hm))]

theorem splitCharC_append (sep : Char) :
    ∀ (p rest : Chars), sep ∉ p →
      splitCharC sep (p ++ sep :: rest) = p :: splitCharC sep rest := by
  intro p
  induction p with
  | nil => intro rest _; rw [List.nil_append, splitCharC, if_pos rfl]
  | cons c p' ih =>
      intro rest h
      have hc : ¬c = sep := fun hcs => h (hcs ▸ List.mem_cons_self c p')
      rw [List.cons_append, splitCharC, if_neg hc,
        ih rest (fun hm => h (List.mem_cons_of_mem c hm))]

theorem splitCharC_joinSepC (sep : Char) :
    ∀ ls : List Chars, ls ≠ [] → (∀ l ∈ ls, sep ∉ l) →
      splitCharC sep (joinSepC sep ls) = ls := by
  intro ls
  induction ls with
  | nil => intro h; exact absurd rfl h
  | cons l rest ih =>
      intro _ hmem
      cases rest with
      | nil => exact splitCharC_no_sep sep l (hmem l (List.mem_cons_self l []))
      | cons m ms =>
          rw [joinSepC, splitCharC_append sep l _ (hmem l (List.mem_cons_self l _)),
            ih (by simp) (fun x hx => hmem x (List.mem_cons_of_mem l hx))]

theorem joinSepC_ne_nil (sep : Char) (l : Chars) (ls : List Chars) (hl : l ≠ []) :
    joinSepC sep (l :: ls) ≠ [] := by
  cases ls with
  | nil => simpa [joinSepC] using hl
  | cons m ms => simp [joinSepC]

theorem joinSepC_mem (sep : Char) :
    ∀ (ls : List Chars) (c : Char), c ∈ joinSepC sep ls →
      c = sep ∨ ∃ l ∈ ls, c ∈ l := by
  intro ls
  induction ls with
  | nil => intro c hc; simp [joinSepC] at hc
  | cons l rest ih =>
      intro c hc
      cases rest with
      | nil => exact Or.inr ⟨l, List.mem_cons_self l [], by simpa [joinSepC] using hc⟩
      | cons m ms =>
          rw [joinSepC] at hc
          rcases List.mem_append.1 hc with h | h
          · exact Or.inr ⟨l, List.mem_cons_self l _, h⟩
          · rcases List.mem_cons.1 h with h' | h'
            · exact Or.inl h'
            · rcases ih c h' with h'' | ⟨x, hx, hcx⟩
              · exact Or.inl h''
              · exact Or.inr ⟨x, List.mem_cons_of_mem l hx, hcx⟩

theorem joinSepC_head? (sep : Char) (l : Chars) (ls : List Chars) (hl : l ≠ []) :
    (joinSepC sep (l :: ls)).head? = l.head? := by
  cases ls with
  | nil => rfl
  | cons m ms =>
      rw [joinSepC]
      cases l with
      | nil => exact absurd rfl hl
      | cons c t => rfl

theorem getLast?_cons_ne_nil {α : Type} (a : α) (l : List α) (h : l ≠ []) :
    (a :: l).getLast? = l.getLast? := by
  cases l with
  | nil => exact absurd rfl h
  | cons b bs => simp

theorem joinSepC_getLast? (sep : Char) :
    ∀ (ls : List Chars) (l : Chars), l ≠ [] →
      (joinSepC sep (ls ++ [l])).getLast? = l.getLast? := by
  intro ls
  induction ls with
  | nil => intro l _; rfl
  | cons x rest ih =>
      intro l hl
      have hcons : joinSepC sep ((x :: rest) ++ [l])
          = x ++ sep :: joinSepC sep (rest ++ [l]) := by
        cases rest <;> rfl
      have hne : joinSepC sep (rest ++ [l]) ≠ [] := by
        cases rest with
        | nil => simpa [joinSepC] using hl
        | cons y ys =>
            cases hys : ys ++ [l] with
            | nil => simp at hys
            | cons m ms => rw [List.cons_append, hys]; simp [joinSepC]
      rw [hcons, List.getLast?_append_of_ne_nil _ (by simp),
        getLast?_cons_ne_nil sep _ hne, ih l hl]

theorem length_dropWhile_le' {α : Type} (p : α → Bool) :
    ∀ l : List α, (l.dropWhile p).length ≤ l.length := by
  intro l
  induction l with
  | nil => simp
  | cons a t ih =>
      by_cases h : p a = true
      · rw [List.dropWhile_cons_of_pos h]
        exact ih.trans (by simp)
      · rw [List.dropWhile_cons_of_neg (by simpa using h)]

theorem length_dropWhile_lt {α : Type} (p : α → Bool) (l : List α) (a : α)
    (hh : l.head? = some a) (hp : p a = true) :
    (l.dropWhile p).length < l.length := by
  cases l with
  | nil => simp at hh
  | cons b t =>
      have hb : b = a := by simpa using hh
      rw [List.dropWhile_cons_of_pos (hb ▸ hp)]
      exact Nat.lt_succ_of_le (length_dropWhile_le' p t)

theorem trimChars_eq_self (cs : Chars)
    (h1 : ∀ c, cs.head? = some c → c.isWhitespace = false)
    (h2 : ∀ c, cs.getLast? = some c → c.isWhitespace = false) :
    trimChars cs = cs := by
  rw [trimChars, dropWhile_head_false _ cs h1,
    dropWhile_head_false _ cs.reverse (by
      intro c hc
      exact h2 c (by rwa [List.head?_reverse] at hc)),
    List.reverse_reverse]

theorem trimChars_length_le (cs : Chars) :
    (trimChars cs).length ≤ (cs.dropWhile Char.isWhitespace).length := by
  rw [trimChars, List.length_reverse]
  exact (length_dropWhile_le' _ _).trans (by simp)

theorem trim_self_head_not_ws (cs : Chars) (h : trimChars cs = cs) :
    ∀ c, cs.head? = some c → c.isWhitespace = false := by
  intro c hc
  by_contra hws
  have hws' : c.isWhitespace = true := by simpa using hws
  have hlt : (cs.dropWhile Char.isWhitespace).length < cs.length :=
    length_dropWhile_lt _ cs c hc hws'
  have := trimChars_length_le cs
  rw [h] at this
  omega

theorem trim_self_getLast_not_ws (cs : Chars) (h : trimChars cs = cs) :
    ∀ c, cs.getLast? = some c → c.isWhitespace = false := by
  intro c hc
  by_contra hws
  have hws' : c.isWhitespace = true := by simpa using hws
  by_cases hhead : ∀ d, cs.head? = some d → d.isWhitespace = false
  · have hdw : cs.dropWhile Char.isWhitespace = cs := dropWhile_head_false _ cs hhead
    have hrev : cs.reverse.head? = some c := by rwa [List.head?_reverse]
    have hlt : (cs.reverse.dropWhile Char.isWhitespace).length < cs.reverse.length :=
      length_dropWhile_lt _ cs.reverse c hrev hws'
    have hlen : (trimChars cs).length
        = (cs.reverse.dropWhile Char.isWhitespace).length := by
      rw [trimChars, hdw, List.length_reverse]
    have : (trimChars cs).length = cs.length := by rw [h]
    rw [hlen] at this
    simp only [List.length_reverse] at hlt
    omega
  · push_neg at hhead
    obtain ⟨d, hd, hdws⟩ := hhead
    have hdws' : d.isWhitespace = true := by simpa using hdws
    have hlt : (cs.dropWhile Char.isWhitespace).length < cs.length :=
      length_dropWhile_lt _ cs d hd hdws'
    have := trimChars_length_le cs
    rw [h] at this
    omega

/-! ## Cell-level decode/encode inversion -/

theorem trimChars_eq_self_of_all (cs : Chars)
    (h : ∀ c ∈ cs, c.isWhitespace = false) : trimChars cs = cs :=
  trimChars_eq_self cs
    (fun c hc => h c (List.mem_of_mem_head? (by simpa using hc)))
    (fun c hc => h c (List.mem_of_getLast?_eq_some hc))

theorem goodKey_spec (k : String) (h : goodKey k = true) :
    k ≠ "" ∧ trimChars k.data = k.data ∧ ',' ∉ k.data ∧ '\n' ∉ k.data ∧
      jsIndex headerMap k = none := by
  rw [goodKey] at h
  simp only [Bool.and_eq_true, bne_iff_ne, beq_iff_eq, Bool.not_eq_true'] at h
  exact ⟨h.1.1.1.1, h.1.1.1.2, (contains_false_iff _ _).1 h.1.1.2,
    (contains_false_iff _ _).1 h.1.2, h.2⟩

theorem encodeCell_eq (o : Option Value) : encodeCell o = escapeIfNeeded (rawCell o) := by
  match o with
  | none => rfl
  | some .vnull => rfl
  | some .vnan => rfl
  | some (.vstr s) => rfl
  | some (.vnum q) =>
      rw [encodeCell, rawCell, escapeIfNeeded]
      have hc : ∀ a : Char, a ∈ jsNumToChars q → a ≠ ',' ∧ a ≠ '"' := by
        intro a ha
        rcases jsNumToChars_mem q a ha with h | h | h
        · exact ⟨(digit_facts a h).2.1, (digit_facts a h).2.2.1⟩
        · subst h; exact ⟨by decide, by decide⟩
        · subst h; exact ⟨by decide, by decide⟩
      have h1 : (jsNumToChars q).contains ',' = false :=
        (contains_false_iff _ _).2 (fun hm => (hc ',' hm).1 rfl)
      have h2 : (jsNumToChars q).contains '"' = false :=
        (contains_false_iff _ _).2 (fun hm => (hc '"' hm).2 rfl)
      rw [h1, h2]
      simp

theorem jsIndex_of_mem_keys (r : JRecord) (k : String) :
    k ∈ r.map Prod.fst → ∃ v, jsIndex r k = some v ∧ (k, v) ∈ r := by
  induction r with
  | nil => intro h; simp at h
  | cons kv r' ih =>
      intro h
      obtain ⟨k', v'⟩ := kv
      by_cases hk : k' = k
      · exact ⟨v', by rw [jsIndex, if_pos hk], by simp [hk]⟩
      · have : k ∈ r'.map Prod.fst := by
          rcases List.mem_cons.1 h with h' | h'
          · exact absurd h'.symm hk
          · exact h'
        obtain ⟨v, hv, hmem⟩ := ih this
        exact ⟨v, by rw [jsIndex, if_neg hk]; exact hv, List.mem_cons_of_mem _ hmem⟩

theorem string_mk_ne_empty (cs : Chars) (h : cs ≠ []) : (⟨cs⟩ : String) ≠ "" := by
  intro hmk
  exact h (congrArg String.data hmk)

/-- Decoding the raw cell content of a round-trippable value recovers it. -/
theorem decodeField_rawCell (k : String) (v : Value)
    (hmap : jsIndex headerMap k = none) (hv : goodVal k v = true) :
    decodeField k (⟨rawCell (some v)⟩ : String) = (k, v) := by
  rw [goodVal.eq_def] at hv
  by_cases hnum : numericFields.contains k = true
  · rw [if_pos hnum] at hv
    cases v with
    | vstr s => simp at hv
    | vnull =>
        have h0 : jsTrim (⟨rawCell (some Value.vnull)⟩ : String) = "" := by
          simp [jsTrim, rawCell]; rfl
        simp only [decodeField, h0, hmap, Option.getD_none]
        rw [if_pos hnum]
        simp
    | vnan =>
        have htr : trimChars ['N', 'a', 'N'] = ['N', 'a', 'N'] := by decide
        have hne : (⟨['N', 'a', 'N']⟩ : String) ≠ "" := string_mk_ne_empty _ (by simp)
        have hpf : parseFloatQ ⟨['N', 'a', 'N']⟩ = none := by decide
        simp only [decodeField, jsTrim, rawCell, hmap, Option.getD_none, htr]
        rw [if_pos hnum, if_neg hne, hpf]
    | vnum q =>
        have hden : q.den = 1 ∨ (decPow q.den).isSome = true := by simpa using hv
        have hmem : ∀ c ∈ jsNumToChars q, c.isWhitespace = false := by
          intro c hc
          rcases jsNumToChars_mem q c hc with h | h | h
          · exact (digit_facts c h).2.2.2.2.2.2.2
          · subst h; decide
          · subst h; decide
        have htr : trimChars (jsNumToChars q) = jsNumToChars q :=
          trimChars_eq_self_of_all _ hmem
        have hne : (⟨jsNumToChars q⟩ : String) ≠ "" :=
          string_mk_ne_empty _ (jsNumToChars_ne_nil q)
        simp only [decodeField, jsTrim, rawCell, hmap, Option.getD_none, htr]
        rw [if_pos hnum, if_neg hne, parseFloatQ_jsNumToChars_dec q hden]
  · rw [if_neg hnum] at hv
    cases v with
    | vstr s =>
        simp only [Bool.and_eq_true, beq_iff_eq, Bool.not_eq_true'] at hv
        simp only [decodeField, jsTrim, rawCell, hmap, Option.getD_none, hv.1]
        rw [if_neg hnum]
    | vnull => simp at hv
    | vnan => simp at hv
    | vnum q => simp at hv

/-- Rebuilding a record field-by-field through `jsIndex` is the identity on
records with distinct keys. -/
theorem decode_map_keys (r : JRecord)
    (hnd : (r.map Prod.fst).Nodup)
    (hfield : ∀ kv ∈ r, decodeField kv.1 (⟨rawCell (jsIndex r kv.1)⟩ : String) = kv) :
    (r.map Prod.fst).map
      (fun k => decodeField k (⟨rawCell (jsIndex r k)⟩ : String)) = r := by
  induction r with
  | nil => rfl
  | cons kv r' ih =>
      obtain ⟨k, v⟩ := kv
      rw [List.map_cons, List.map_cons]
      have hknotin : k ∉ r'.map Prod.fst := (List.nodup_cons.1 (by simpa using hnd)).1
      have hnd' : (r'.map Prod.fst).Nodup := (List.nodup_cons.1 (by simpa using hnd)).2
      have hhead : decodeField k (⟨rawCell (jsIndex ((k, v) :: r') k)⟩ : String) = (k, v) :=
        hfield (k, v) (List.mem_cons_self _ _)
      rw [hhead]
      congr 1
      have hcongr : ∀ k' ∈ r'.map Prod.fst,
          decodeField k' (⟨rawCell (jsIndex ((k, v) :: r') k')⟩ : String)
            = decodeField k' (⟨rawCell (jsIndex r' k')⟩ : String) := by
        intro k' hk'
        have hne : k ≠ k' := fun h => hknotin (h ▸ hk')
        rw [jsIndex, if_neg hne]
      rw [List.map_congr_left hcongr]
      exact ih hnd' (fun kv hkv => by
        have hne : k ≠ kv.1 := fun h => hknotin (h ▸ (List.mem_map.2 ⟨kv, hkv, rfl⟩))
        have := hfield kv (List.mem_cons_of_mem _ hkv)
        rwa [jsIndex, if_neg hne] at this)

/-! ## Row- and document-level decode -/

theorem parseCSVLine_encodedRow (keys : List String) (r : JRecord) (hkne : keys ≠ []) :
    parseCSVLine (⟨encodedRow keys r⟩ : String)
      = keys.map (fun k => (⟨rawCell (jsIndex r k)⟩ : String)) := by
  have hcells : keys.map (fun h => encodeCell (jsIndex r h))
      = (keys.map (fun k => rawCell (jsIndex r k))).map escapeIfNeeded := by
    rw [List.map_map]
    exact List.map_congr_left (fun k _ => encodeCell_eq (jsIndex r k))
  have hne : keys.map (fun k => rawCell (jsIndex r k)) ≠ [] := by
    simpa using hkne
  rw [parseCSVLine]
  have : (⟨encodedRow keys r⟩ : String).data = encodedRow keys r := rfl
  rw [this, encodedRow, hcells, pclAux_encoded_fields _ hne, List.map_map]
  rfl

theorem header_decode (keys : List String) (hne : keys ≠ [])
    (hgood : ∀ k ∈ keys, goodKey k = true) :
    (splitCharC ',' (joinSepC ',' (keys.map String.data))).map
      (fun cs => jsTrim (⟨cs⟩ : String)) = keys := by
  rw [splitCharC_joinSepC ',' (keys.map String.data) (by simpa using hne)
    (by
      intro l hl hcomma
      obtain ⟨k, hk, rfl⟩ := List.mem_map.1 hl
      exact (goodKey_spec k (hgood k hk)).2.2.1 hcomma),
    List.map_map]
  have htrim : ∀ k ∈ keys, jsTrim (⟨k.data⟩ : String) = k := by
    intro k hk
    have ht := (goodKey_spec k (hgood k hk)).2.1
    show (⟨trimChars k.data⟩ : String) = k
    rw [ht]
  show List.map (fun k => jsTrim (⟨k.data⟩ : String)) keys = keys
  have hmapeq : List.map (fun k => jsTrim (⟨k.data⟩ : String)) keys
      = List.map id keys := List.map_congr_left (fun k hk => htrim k hk)
  rw [hmapeq, List.map_id]

theorem foldl_keepRow (headers : List String) :
    ∀ (rows : List String) (acc : List JRecord),
      rows.foldl (fun records line =>
        if line = "" then records
        else
          let values := parseCSVLine line
          if values.length ≠ headers.length then records
          else records ++ [decodeRow headers values]) acc
      = acc ++ (rows.filter (keepRow headers)).map
          (fun l => decodeRow headers (parseCSVLine l)) := by
  intro rows
  induction rows with
  | nil => intro acc; simp
  | cons line rows' ih =>
      intro acc
      rw [List.foldl_cons]
      by_cases h1 : line = ""
      · rw [if_pos h1, ih]
        have hkeep : keepRow headers line = false := by
          simp [keepRow, h1]
        rw [List.filter_cons_of_neg (by simp [hkeep])]
      · rw [if_neg h1]
        by_cases h2 : (parseCSVLine line).length ≠ headers.length
        · simp only [if_pos h2]
          rw [ih]
          have hkeep : keepRow headers line = false := by
            simp only [keepRow, Bool.and_eq_false_iff]
            right
            simpa using h2
          rw [List.filter_cons_of_neg (by simp [hkeep])]
        · simp only [if_neg h2]
          rw [ih]
          have hkeep : keepRow headers line = true := by
            simp only [keepRow, Bool.and_eq_true, bne_iff_ne, beq_iff_eq]
            exact ⟨h1, by simpa using h2⟩
          rw [List.filter_cons_of_pos (by simp [hkeep]), List.map_cons]
          simp

/-- `parseCSVToRecords` decodes exactly the non-empty data rows whose parsed
column count matches the header, in order. -/
theorem parseCSVToRecords_char (csvData : String) (l0 : String) (rest : List String)
    (hsplit : (splitCharC '\n' (jsTrim csvData).data).map (fun cs => (⟨cs⟩ : String))
      = l0 :: rest)
    (hrest : rest ≠ []) (hl0 : l0 ≠ "") :
    parseCSVToRecords csvData
      = (rest.filter
          (keepRow ((splitCharC ',' l0.data).map (fun cs => jsTrim (⟨cs⟩ : String))))).map
          (fun l => decodeRow
            ((splitCharC ',' l0.data).map (fun cs => jsTrim (⟨cs⟩ : String)))
            (parseCSVLine l)) := by
  rw [parseCSVToRecords, hsplit]
  have hc1 : rest.isEmpty = false := by simpa using hrest
  simp only [hc1, hl0, Bool.false_or, if_false, decide_eq_true_eq, if_neg,
    Bool.or_self, hrest]
  rw [foldl_keepRow]
  simp

/-! ## Whitespace and line-break hygiene of encoded documents -/

theorem joinSepC_getLast_ws (sep : Char) (hsep : sep.isWhitespace = false) :
    ∀ cells : List Chars,
      (∀ l ∈ cells, ∀ c, l.getLast? = some c → c.isWhitespace = false) →
      ∀ c, (joinSepC sep cells).getLast? = some c → c.isWhitespace = false := by
  intro cells
  induction cells with
  | nil => intro _ c hc; simp [joinSepC] at hc
  | cons p rest ih =>
      intro hcells c hc
      cases rest with
      | nil => exact hcells p (List.mem_cons_self p []) c (by simpa [joinSepC] using hc)
      | cons q ps =>
          rw [joinSepC, List.getLast?_append_of_ne_nil _ (by simp)] at hc
          cases hj : joinSepC sep (q :: ps) with
          | nil =>
              rw [hj] at hc
              simp only [List.getLast?_singleton, Option.some_inj] at hc
              exact hc ▸ hsep
          | cons a as =>
              rw [hj, getLast?_cons_ne_nil sep (a :: as) (by simp), ← hj] at hc
              exact ih (fun l hl => hcells l (List.mem_cons_of_mem p hl)) c hc

theorem goodVal_vstr (k : String) (s : String) (hv : goodVal k (.vstr s) = true) :
    trimChars s.data = s.data ∧ '\n' ∉ s.data := by
  rw [goodVal.eq_def] at hv
  by_cases hnum : numericFields.contains k = true
  · rw [if_pos hnum] at hv; simp at hv
  · rw [if_neg hnum] at hv
    simp only [Bool.and_eq_true, beq_iff_eq, Bool.not_eq_true'] at hv
    exact ⟨hv.1, (contains_false_iff _ _).1 hv.2⟩

theorem encodeCell_no_newline (k : String) (v : Value) (hv : goodVal k v = true) :
    '\n' ∉ encodeCell (some v) := by
  cases v with
  | vstr s =>
      obtain ⟨_, hnl⟩ := goodVal_vstr k s hv
      rw [encodeCell]
      by_cases hq : (s.data.contains ',' || s.data.contains '"') = true
      · rw [if_pos hq]
        intro hmem
        rcases List.mem_cons.1 hmem with h | h
        · exact absurd h.symm (by decide)
        · rcases List.mem_append.1 h with h' | h'
          · exact hnl (escQuotes_subset s.data '\n' h')
          · simp only [List.mem_singleton] at h'
            exact absurd h'.symm (by decide)
      · rw [if_neg hq]; exact hnl
  | vnum q =>
      intro hmem
      rcases jsNumToChars_mem q '\n' hmem with h | h | h
      · exact absurd h (by decide)
      · exact absurd h (by decide)
      · exact absurd h (by decide)
  | vnan => decide
  | vnull => simp [encodeCell]

theorem encodeCell_getLast_not_ws (k : String) (v : Value) (hv : goodVal k v = true) :
    ∀ c, (encodeCell (some v)).getLast? = some c → c.isWhitespace = false := by
  cases v with
  | vstr s =>
      obtain ⟨htr, _⟩ := goodVal_vstr k s hv
      intro c hc
      rw [encodeCell] at hc
      by_cases hq : (s.data.contains ',' || s.data.contains '"') = true
      · rw [if_pos hq] at hc
        have : (('"' :: escQuotes s.data) ++ ['"']).getLast? = some '"' := by
          rw [List.getLast?_append_of_ne_nil _ (by simp)]
          rfl
        rw [this] at hc
        simp only [Option.some_inj] at hc
        subst hc
        decide
      · rw [if_neg hq] at hc
        exact trim_self_getLast_not_ws s.data htr c hc
  | vnum q =>
      intro c hc
      have hmem := List.mem_of_getLast?_eq_some hc
      rcases jsNumToChars_mem q c (by simpa [encodeCell] using hmem) with h | h | h
      · exact (digit_facts c h).2.2.2.2.2.2.2
      · subst h; decide
      · subst h; decide
  | vnan =>
      intro c hc
      have hmem := List.mem_of_getLast?_eq_some hc
      have : c ∈ (['N', 'a', 'N'] : Chars) := by simpa [encodeCell] using hmem
      fin_cases this <;> decide
  | vnull => intro c hc; simp [encodeCell] at hc

theorem jsIndex_eq_of_mem_nodup (r : JRecord) (hnd : (r.map Prod.fst).Nodup) :
    ∀ kv ∈ r, jsIndex r kv.1 = some kv.2 := by
  induction r with
  | nil => intro kv h; simp at h
  | cons kv0 r' ih =>
      intro kv hkv
      obtain ⟨k0, v0⟩ := kv0
      rcases List.mem_cons.1 hkv with h | h
      · subst h; rw [jsIndex, if_pos rfl]
      · have hknotin : k0 ∉ r'.map Prod.fst := (List.nodup_cons.1 (by simpa using hnd)).1
        have hne : k0 ≠ kv.1 :=
          fun hk => hknotin (hk ▸ List.mem_map.2 ⟨kv, h, rfl⟩)
        rw [jsIndex, if_neg hne]
        exact ih (List.nodup_cons.1 (by simpa using hnd)).2 kv h

theorem row_no_newline (keys : List String) (r : JRecord)
    (hsame : r.map Prod.fst = keys)
    (hvals : ∀ kv ∈ r, goodVal kv.1 kv.2 = true) :
    '\n' ∉ encodedRow keys r := by
  intro hmem
  rcases joinSepC_mem ',' _ '\n' hmem with h | ⟨l, hl, hc⟩
  · exact absurd h (by decide)
  · obtain ⟨k, hk, rfl⟩ := List.mem_map.1 hl
    obtain ⟨v, hv, hkv⟩ := jsIndex_of_mem_keys r k (hsame ▸ hk)
    rw [hv] at hc
    exact encodeCell_no_newline k v (hvals (k, v) hkv) hc

theorem row_getLast_not_ws (keys : List String) (r : JRecord)
    (hsame : r.map Prod.fst = keys)
    (hvals : ∀ kv ∈ r, goodVal kv.1 kv.2 = true) :
    ∀ c, (encodedRow keys r).getLast? = some c → c.isWhitespace = false := by
  apply joinSepC_getLast_ws ',' (by decide)
  intro l hl c hc
  obtain ⟨k, hk, rfl⟩ := List.mem_map.1 hl
  obtain ⟨v, hv, hkv⟩ := jsIndex_of_mem_keys r k (hsame ▸ hk)
  rw [hv] at hc
  exact encodeCell_getLast_not_ws k v (hvals (k, v) hkv) c hc

theorem string_eq_empty_of_data (s : String) (h : s.data = []) : s = "" := by
  have h1 : s = (⟨s.data⟩ : String) := rfl
  rw [h1, h]

/-- Decoding one encoded row recovers the record. -/
theorem decodeRow_encodedRow (keys : List String) (r : JRecord)
    (hkne : keys ≠ []) (hsame : r.map Prod.fst = keys)
    (hnd : keys.Nodup)
    (hgood : ∀ k ∈ keys, goodKey k = true)
    (hvals : ∀ kv ∈ r, goodVal kv.1 kv.2 = true) :
    decodeRow keys (parseCSVLine (⟨encodedRow keys r⟩ : String)) = r := by
  rw [parseCSVLine_encodedRow keys r hkne, decodeRow]
  have hzip : keys.zip (keys.map (fun k => (⟨rawCell (jsIndex r k)⟩ : String)))
      = keys.map (fun k => (k, (⟨rawCell (jsIndex r k)⟩ : String))) := by
    have h := List.zip_map' id (fun k => (⟨rawCell (jsIndex r k)⟩ : String)) keys
    rwa [List.map_id] at h
  rw [hzip, List.map_map]
  have hnd' : (r.map Prod.fst).Nodup := hsame ▸ hnd
  have hfield : ∀ kv ∈ r, decodeField kv.1 (⟨rawCell (jsIndex r kv.1)⟩ : String) = kv := by
    intro kv hkv
    rw [jsIndex_eq_of_mem_nodup r hnd' kv hkv]
    have hkmem : kv.1 ∈ keys := hsame ▸ List.mem_map.2 ⟨kv, hkv, rfl⟩
    have hmap : jsIndex headerMap kv.1 = none :=
      (goodKey_spec kv.1 (hgood kv.1 hkmem)).2.2.2.2
    exact decodeField_rawCell kv.1 kv.2 hmap (hvals kv hkv)
  have hfin := decode_map_keys r hnd' hfield
  rw [← hsame]
  exact hfin

/-- The codec round trip on records whose fields satisfy the round-trip
hypotheses. -/
theorem roundtrip_main (r0 : JRecord) (rs : List JRecord)
    (hk0 : r0 ≠ [])
    (hnd : (r0.map Prod.fst).Nodup)
    (hgood : ∀ k ∈ r0.map Prod.fst, goodKey k = true)
    (hsame : ∀ r ∈ r0 :: rs, r.map Prod.fst = r0.map Prod.fst)
    (hvals : ∀ r ∈ r0 :: rs, ∀ kv ∈ r, goodVal kv.1 kv.2 = true)
    (hrows : ∀ r ∈ r0 :: rs, encodedRow (r0.map Prod.fst) r ≠ []) :
    parseCSVToRecords (recordsToCSV (r0 :: rs)) = r0 :: rs := by
  obtain ⟨k0, krest, hkeys⟩ : ∃ k0 krest, r0.map Prod.fst = k0 :: krest := by
    cases hmap : r0.map Prod.fst with
    | nil =>
        cases r0 with
        | nil => exact absurd rfl hk0
        | cons kv r0' => simp at hmap
    | cons a l => exact ⟨a, l, rfl⟩
  have hkeysne : r0.map Prod.fst ≠ [] := by rw [hkeys]; simp
  have hgk0 : goodKey k0 = true := hgood k0 (by rw [hkeys]; exact List.mem_cons_self _ _)
  have hk0data : k0.data ≠ [] := by
    intro h
    exact (goodKey_spec k0 hgk0).1 (string_eq_empty_of_data k0 h)
  have hhl_ne : joinSepC ',' ((r0.map Prod.fst).map String.data) ≠ [] := by
    rw [hkeys, List.map_cons]
    exact joinSepC_ne_nil ',' k0.data (krest.map String.data) hk0data
  have hnl_hl : '\n' ∉ joinSepC ',' ((r0.map Prod.fst).map String.data) := by
    intro hmem
    rcases joinSepC_mem ',' _ '\n' hmem with h | ⟨l, hlm, hc⟩
    · exact absurd h (by decide)
    · obtain ⟨k, hk, rfl⟩ := List.mem_map.1 hlm
      exact (goodKey_spec k (hgood k hk)).2.2.2.1 hc
  have hnl_rows : ∀ row ∈ (r0 :: rs).map (encodedRow (r0.map Prod.fst)), '\n' ∉ row := by
    intro row hrow
    obtain ⟨r, hr, rfl⟩ := List.mem_map.1 hrow
    exact row_no_newline _ r (hsame r hr) (fun kv hkv => hvals r hr kv hkv)
  have hdoc_head : ∀ c,
      (joinSepC '\n' (joinSepC ',' ((r0.map Prod.fst).map String.data)
        :: (r0 :: rs).map (encodedRow (r0.map Prod.fst)))).head? = some c →
      c.isWhitespace = false := by
    intro c hc
    rw [joinSepC_head? '\n' _ _ hhl_ne] at hc
    rw [hkeys, List.map_cons, joinSepC_head? ',' k0.data (krest.map String.data) hk0data] at hc
    exact trim_self_head_not_ws k0.data (goodKey_spec k0 hgk0).2.1 c hc
  have hdoc_last : ∀ c,
      (joinSepC '\n' (joinSepC ',' ((r0.map Prod.fst).map String.data)
        :: (r0 :: rs).map (encodedRow (r0.map Prod.fst)))).getLast? = some c →
      c.isWhitespace = false := by
    intro c hc
    rcases List.eq_nil_or_concat ((r0 :: rs).map (encodedRow (r0.map Prod.fst)))
      with h | ⟨init, lastRow, hconcat⟩
    · simp at h
    · rw [List.concat_eq_append] at hconcat
      have hlastmem : lastRow ∈ (r0 :: rs).map (encodedRow (r0.map Prod.fst)) := by
        rw [hconcat]; exact List.mem_append.2 (Or.inr (List.mem_singleton.2 rfl))
      obtain ⟨r, hr, hlr⟩ := List.mem_map.1 hlastmem
      have hlast_ne : lastRow ≠ [] := hlr ▸ hrows r hr
      rw [hconcat, ← List.cons_append, joinSepC_getLast? '\n' _ lastRow hlast_ne] at hc
      exact row_getLast_not_ws _ r (hsame r hr) (fun kv hkv => hvals r hr kv hkv) c
        (by rwa [hlr])
  have htrim : trimChars (joinSepC '\n' (joinSepC ',' ((r0.map Prod.fst).map String.data)
      :: (r0 :: rs).map (encodedRow (r0.map Prod.fst))))
      = joinSepC '\n' (joinSepC ',' ((r0.map Prod.fst).map String.data)
        :: (r0 :: rs).map (encodedRow (r0.map Prod.fst))) :=
    trimChars_eq_self _ hdoc_head hdoc_last
  have hsplit : splitCharC '\n' (joinSepC '\n'
      (joinSepC ',' ((r0.map Prod.fst).map String.data)
        :: (r0 :: rs).map (encodedRow (r0.map Prod.fst))))
      = joinSepC ',' ((r0.map Prod.fst).map String.data)
        :: (r0 :: rs).map (encodedRow (r0.map Prod.fst)) := by
    apply splitCharC_joinSepC '\n' _ (by simp)
    intro l hl
    rcases List.mem_cons.1 hl with h | h
    · rw [h]; exact hnl_hl
    · exact hnl_rows l h
  have henc : recordsToCSV (r0 :: rs)
      = (⟨joinSepC '\n' (joinSepC ',' ((r0.map Prod.fst).map String.data)
          :: (r0 :: rs).map (encodedRow (r0.map Prod.fst)))⟩ : String) := rfl
  have hsplitS : (splitCharC '\n'
      (jsTrim (⟨joinSepC '\n' (joinSepC ',' ((r0.map Prod.fst).map String.data)
        :: (r0 :: rs).map (encodedRow (r0.map Prod.fst)))⟩ : String)).data).map
        (fun cs => (⟨cs⟩ : String))
      = (⟨joinSepC ',' ((r0.map Prod.fst).map String.data)⟩ : String)
        :: ((r0 :: rs).map (encodedRow (r0.map Prod.fst))).map (fun cs => (⟨cs⟩ : String)) := by
    have hjt : (jsTrim (⟨joinSepC '\n' (joinSepC ',' ((r0.map Prod.fst).map String.data)
        :: (r0 :: rs).map (encodedRow (r0.map Prod.fst)))⟩ : String)).data
        = joinSepC '\n' (joinSepC ',' ((r0.map Prod.fst).map String.data)
          :: (r0 :: rs).map (encodedRow (r0.map Prod.fst))) := htrim
    rw [hjt, hsplit, List.map_cons]
  have hl0ne : (⟨joinSepC ',' ((r0.map Prod.fst).map String.data)⟩ : String) ≠ "" :=
    string_mk_ne_empty _ hhl_ne
  have hrestne : ((r0 :: rs).map (encodedRow (r0.map Prod.fst))).map
      (fun cs => (⟨cs⟩ : String)) ≠ [] := by simp
  rw [henc, parseCSVToRecords_char _ _ _ hsplitS hrestne hl0ne]
  have hheaders : (splitCharC ','
      (⟨joinSepC ',' ((r0.map Prod.fst).map String.data)⟩ : String).data).map
      (fun cs => jsTrim (⟨cs⟩ : String)) = r0.map Prod.fst :=
    header_decode (r0.map Prod.fst) hkeysne hgood
  rw [hheaders]
  have hfilter : (((r0 :: rs).map (encodedRow (r0.map Prod.fst))).map
      (fun cs => (⟨cs⟩ : String))).filter (keepRow (r0.map Prod.fst))
      = ((r0 :: rs).map (encodedRow (r0.map Prod.fst))).map (fun cs => (⟨cs⟩ : String)) := by
    rw [List.filter_eq_self]
    intro line hline
    obtain ⟨row, hrowm, rfl⟩ := List.mem_map.1 hline
    obtain ⟨r, hr, rfl⟩ := List.mem_map.1 hrowm
    have hne := string_mk_ne_empty _ (hrows r hr)
    rw [keepRow]
    simp only [Bool.and_eq_true, bne_iff_ne, beq_iff_eq]
    refine ⟨hne, ?_⟩
    rw [parseCSVLine_encodedRow _ r hkeysne, List.length_map]
  rw [hfilter, List.map_map, List.map_map]
  have hrec : ∀ r ∈ r0 :: rs,
      (((fun l => decodeRow (r0.map Prod.fst) (parseCSVLine l))
        ∘ fun cs => (⟨cs⟩ : String)) ∘ encodedRow (r0.map Prod.fst)) r = id r := by
    intro r hr
    show decodeRow (r0.map Prod.fst)
      (parseCSVLine (⟨encodedRow (r0.map Prod.fst) r⟩ : String)) = r
    exact decodeRow_encodedRow (r0.map Prod.fst) r hkeysne (hsame r hr) hnd hgood
      (fun kv hkv => hvals r hr kv hkv)
  rw [List.map_congr_left hrec, List.map_id]

/-! ## Polling-loop step lemmas -/

/-- The three events of one poll iteration, variant 1. -/
def iterEventsA (statuses : Nat → StatusResponseA) (attempts : Nat) : List PollEvent :=
  [PollEvent.sleep POLL_INTERVAL_MS, PollEvent.statusRead attempts,
    PollEvent.progressCb
      (if (statuses attempts).progress.getD 0 = 0 then 10
       else (statuses attempts).progress.getD 0)
      ("Processing... (" ++ Nat.repr ((attempts + 1) * 2) ++ "s elapsed)")]

/-- The three events of one poll iteration, variant 2. -/
def iterEventsB {α : Type} (statuses : Nat → StatusResponseB α) (attempts : Nat) :
    List PollEvent :=
  [PollEvent.sleep POLL_INTERVAL_MS, PollEvent.statusRead attempts,
    PollEvent.progressCb
      ((statuses attempts).progress.getD (min (10 + ((attempts + 1) : ℚ) * 2) 90))
      (jsOrString (statuses attempts).message
        ("Processing... (" ++ Nat.repr ((attempts + 1) * 2) ++ "s elapsed)"))]

theorem pollLoopA_step_nonterminal (statuses : Nat → StatusResponseA)
    (download : String → Option String) (fuel attempts : Nat)
    (h : (statuses attempts).status = .pending ∨ (statuses attempts).status = .processing) :
    pollLoopA statuses download (fuel + 1) attempts
      = (iterEventsA statuses attempts ++ (pollLoopA statuses download fuel (attempts + 1)).1,
         (pollLoopA statuses download fuel (attempts + 1)).2) := by
  rcases h with h | h <;> (rw [pollLoopA, h]; rfl)

theorem pollLoopA_step_failed (statuses : Nat → StatusResponseA)
    (download : String → Option String) (fuel attempts : Nat)
    (h : (statuses attempts).status = .failed) :
    pollLoopA statuses download (fuel + 1) attempts
      = (iterEventsA statuses attempts,
         .error (jsOrString (statuses attempts).error_message "Job failed")) := by
  rw [pollLoopA, h]
  rfl

theorem pollLoopA_step_completed_events (statuses : Nat → StatusResponseA)
    (download : String → Option String) (fuel attempts : Nat)
    (h : (statuses attempts).status = .completed) :
    (pollLoopA statuses download (fuel + 1) attempts).1
      = iterEventsA statuses attempts ++ [PollEvent.progressCb 100 "Complete!"] := by
  rw [pollLoopA, h]
  dsimp only
  rcases (statuses attempts).csv_data with _ | d
  · dsimp only
    rcases (statuses attempts).download_url with _ | u
    · rfl
    · dsimp only
      rcases download u with _ | t <;> rfl
  · rfl

theorem pollLoopB_step_nonterminal {α : Type} (statuses : Nat → StatusResponseB α)
    (fuel attempts : Nat)
    (h : (statuses attempts).status = .pending ∨ (statuses attempts).status = .processing) :
    pollLoopB statuses (fuel + 1) attempts
      = (iterEventsB statuses attempts ++ (pollLoopB statuses fuel (attempts + 1)).1,
         (pollLoopB statuses fuel (attempts + 1)).2) := by
  rcases h with h | h <;> (rw [pollLoopB, h]; simp [iterEventsB])

theorem pollLoopB_step_failed {α : Type} (statuses : Nat → StatusResponseB α)
    (fuel attempts : Nat) (h : (statuses attempts).status = .failed) :
    pollLoopB statuses (fuel + 1) attempts
      = (iterEventsB statuses attempts,
         .error (jsOrString (statuses attempts).message "Job failed")) := by
  rw [pollLoopB, h]
  simp [iterEventsB]

theorem pollLoopB_step_completed_events {α : Type} (statuses : Nat → StatusResponseB α)
    (fuel attempts : Nat) (h : (statuses attempts).status = .completed) :
    (pollLoopB statuses (fuel + 1) attempts).1
      = iterEventsB statuses attempts ++ [PollEvent.progressCb 100 "Complete!"] := by
  rw [pollLoopB, h]
  dsimp only
  rcases (statuses attempts).result with _ | r <;> simp [iterEventsB]

/-! ## Polling-loop behaviour under an all-nonterminal server -/

theorem filter_iterEventsA_sleepOrRead (statuses : Nat → StatusResponseA) (attempts : Nat) :
    (iterEventsA statuses attempts).filter isSleepOrRead
      = [PollEvent.sleep POLL_INTERVAL_MS, PollEvent.statusRead attempts] := by
  simp [iterEventsA, isSleepOrRead, List.filter]

theorem filter_iterEventsB_sleepOrRead {α : Type} (statuses : Nat → StatusResponseB α)
    (attempts : Nat) :
    (iterEventsB statuses attempts).filter isSleepOrRead
      = [PollEvent.sleep POLL_INTERVAL_MS, PollEvent.statusRead attempts] := by
  simp [iterEventsB, isSleepOrRead, List.filter]

theorem filter_iterEventsB_statusRead {α : Type} (statuses : Nat → StatusResponseB α)
    (attempts : Nat) :
    (iterEventsB statuses attempts).filter isStatusRead = [PollEvent.statusRead attempts] := by
  simp [iterEventsB, isStatusRead, List.filter]

theorem pollLoopB_nonterminal {α : Type} (statuses : Nat → StatusResponseB α)
    (hnt : ∀ i, (statuses i).status = .pending ∨ (statuses i).status = .processing) :
    ∀ fuel attempts,
      (pollLoopB statuses fuel attempts).2
        = Except.error
            "Request timed out. Please try again with fewer terms or a more specific filter." ∧
      (pollLoopB statuses fuel attempts).1.filter isSleepOrRead
        = (List.range fuel).flatMap
            (fun j => [PollEvent.sleep POLL_INTERVAL_MS, PollEvent.statusRead (attempts + j)]) ∧
      ((pollLoopB statuses fuel attempts).1.filter isStatusRead).length = fuel := by
  intro fuel
  induction fuel with
  | zero => intro attempts; exact ⟨rfl, rfl, rfl⟩
  | succ f ih =>
      intro attempts
      rw [pollLoopB_step_nonterminal statuses f attempts (hnt attempts)]
      obtain ⟨ih1, ih2, ih3⟩ := ih (attempts + 1)
      refine ⟨ih1, ?_, ?_⟩
      · show (iterEventsB statuses attempts ++ (pollLoopB statuses f (attempts + 1)).1).filter
            isSleepOrRead = _
        rw [List.filter_append, ih2, filter_iterEventsB_sleepOrRead,
          List.range_succ_eq_map, List.flatMap_cons, List.flatMap_map]
        have harith : ∀ j : Nat, attempts + 1 + j = attempts + Nat.succ j := by
          intro j; omega
        simp only [Nat.add_zero, Function.comp]
        congr 1
        refine List.flatMap_congr ?_
        intro j _
        rw [harith j]
      · show ((iterEventsB statuses attempts ++ (pollLoopB statuses f (attempts + 1)).1).filter
            isStatusRead).length = f + 1
        rw [List.filter_append, filter_iterEventsB_statusRead, List.length_append, ih3]
        simp [Nat.add_comm]

/-! ## The first `failed` read surfaces the stored error -/

theorem pollLoopA_failed_at (statuses : Nat → StatusResponseA)
    (download : String → Option String) :
    ∀ (k fuel attempts : Nat), k < fuel →
      (∀ i, i < k → (statuses (attempts + i)).status = .pending ∨
        (statuses (attempts + i)).status = .processing) →
      (statuses (attempts + k)).status = .failed →
      (pollLoopA statuses download fuel attempts).2
        = .error (jsOrString (statuses (attempts + k)).error_message "Job failed") := by
  intro k
  induction k with
  | zero =>
      intro fuel attempts hk _ hf
      cases fuel with
      | zero => omega
      | succ f =>
          rw [Nat.add_zero] at hf ⊢
          rw [pollLoopA_step_failed statuses download f attempts hf]
          rfl
  | succ k' ih =>
      intro fuel attempts hk hb hf
      cases fuel with
      | zero => omega
      | succ f =>
          have h0 : (statuses attempts).status = .pending ∨
              (statuses attempts).status = .processing := by
            have := hb 0 (Nat.succ_pos k')
            rwa [Nat.add_zero] at this
          rw [pollLoopA_step_nonterminal statuses download f attempts h0]
          show (pollLoopA statuses download f (attempts + 1)).2 = _
          have harith : ∀ i : Nat, attempts + 1 + i = attempts + (i + 1) := by
            intro i; omega
          have hb' : ∀ i, i < k' → (statuses (attempts + 1 + i)).status = .pending ∨
              (statuses (attempts + 1 + i)).status = .processing := by
            intro i hi
            rw [harith i]
            exact hb (i + 1) (by omega)
          have hf' : (statuses (attempts + 1 + k')).status = .failed := by
            rw [harith k']
            exact hf
          rw [ih f (attempts + 1) (by omega) hb' hf', harith k']

theorem pollLoopB_failed_at {α : Type} (statuses : Nat → StatusResponseB α) :
    ∀ (k fuel attempts : Nat), k < fuel →
      (∀ i, i < k → (statuses (attempts + i)).status = .pending ∨
        (statuses (attempts + i)).status = .processing) →
      (statuses (attempts + k)).status = .failed →
      (pollLoopB statuses fuel attempts).2
        = .error (jsOrString (statuses (attempts + k)).message "Job failed") := by
  intro k
  induction k with
  | zero =>
      intro fuel attempts hk _ hf
      cases fuel with
      | zero => omega
      | succ f =>
          rw [Nat.add_zero] at hf ⊢
          rw [pollLoopB_step_failed statuses f attempts hf]
          rfl
  | succ k' ih =>
      intro fuel attempts hk hb hf
      cases fuel with
      | zero => omega
      | succ f =>
          have h0 : (statuses attempts).status = .pending ∨
              (statuses attempts).status = .processing := by
            have := hb 0 (Nat.succ_pos k')
            rwa [Nat.add_zero] at this
          rw [pollLoopB_step_nonterminal statuses f attempts h0]
          show (pollLoopB statuses f (attempts + 1)).2 = _
          have harith : ∀ i : Nat, attempts + 1 + i = attempts + (i + 1) := by
            intro i; omega
          have hb' : ∀ i, i < k' → (statuses (attempts + 1 + i)).status = .pending ∨
              (statuses (attempts + 1 + i)).status = .processing := by
            intro i hi
            rw [harith i]
            exact hb (i + 1) (by omega)
          have hf' : (statuses (attempts + 1 + k')).status = .failed := by
            rw [harith k']
            exact hf
          rw [ih f (attempts + 1) (by omega) hb' hf', harith k']

/-! ## Progress-callback counting and monotonicity -/

theorem filter_iterEventsA_progressCb (statuses : Nat → StatusResponseA) (attempts : Nat) :
    ((iterEventsA statuses attempts).filter isProgressCb).length = 1 := by
  simp [iterEventsA, isProgressCb, List.filter]

theorem filter_iterEventsA_statusRead (statuses : Nat → StatusResponseA) (attempts : Nat) :
    ((iterEventsA statuses attempts).filter isStatusRead).length = 1 := by
  simp [iterEventsA, isStatusRead, List.filter]

theorem filter_iterEventsB_progressCb {α : Type} (statuses : Nat → StatusResponseB α)
    (attempts : Nat) :
    ((iterEventsB statuses attempts).filter isProgressCb).length = 1 := by
  simp [iterEventsB, isProgressCb, List.filter]

theorem pollLoopA_counts (statuses : Nat → StatusResponseA)
    (download : String → Option String) :
    ∀ fuel attempts,
      ((pollLoopA statuses download fuel attempts).1.filter isStatusRead).length
        ≤ ((pollLoopA statuses download fuel attempts).1.filter isProgressCb).length := by
  intro fuel
  induction fuel with
  | zero => intro attempts; simp [pollLoopA]
  | succ f ih =>
      intro attempts
      cases hst : (statuses attempts).status with
      | pending =>
          rw [pollLoopA_step_nonterminal statuses download f attempts (Or.inl hst)]
          show ((iterEventsA statuses attempts ++ _).filter isStatusRead).length
            ≤ ((iterEventsA statuses attempts ++ _).filter isProgressCb).length
          rw [List.filter_append, List.filter_append, List.length_append, List.length_append,
            filter_iterEventsA_statusRead, filter_iterEventsA_progressCb]
          exact Nat.add_le_add_left (ih (attempts + 1)) 1
      | processing =>
          rw [pollLoopA_step_nonterminal statuses download f attempts (Or.inr hst)]
          show ((iterEventsA statuses attempts ++ _).filter isStatusRead).length
            ≤ ((iterEventsA statuses attempts ++ _).filter isProgressCb).length
          rw [List.filter_append, List.filter_append, List.length_append, List.length_append,
            filter_iterEventsA_statusRead, filter_iterEventsA_progressCb]
          exact Nat.add_le_add_left (ih (attempts + 1)) 1
      | completed =>
          rw [pollLoopA_step_completed_events statuses download f attempts hst]
          rw [List.filter_append, List.filter_append, List.length_append, List.length_append,
            filter_iterEventsA_statusRead, filter_iterEventsA_progressCb]
          simp [isStatusRead, isProgressCb, List.filter]
      | failed =>
          rw [pollLoopA_step_failed statuses download f attempts hst]
          show ((iterEventsA statuses attempts).filter isStatusRead).length
            ≤ ((iterEventsA statuses attempts).filter isProgressCb).length
          rw [filter_iterEventsA_statusRead, filter_iterEventsA_progressCb]

theorem pollLoopB_counts {α : Type} (statuses : Nat → StatusResponseB α) :
    ∀ fuel attempts,
      ((pollLoopB statuses fuel attempts).1.filter isStatusRead).length
        ≤ ((pollLoopB statuses fuel attempts).1.filter isProgressCb).length := by
  intro fuel
  induction fuel with
  | zero => intro attempts; simp [pollLoopB]
  | succ f ih =>
      intro attempts
      cases hst : (statuses attempts).status with
      | pending =>
          rw [pollLoopB_step_nonterminal statuses f attempts (Or.inl hst)]
          show ((iterEventsB statuses attempts ++ _).filter isStatusRead).length
            ≤ ((iterEventsB statuses attempts ++ _).filter isProgressCb).length
          rw [List.filter_append, List.filter_append, List.length_append, List.length_append,
            filter_iterEventsB_statusRead, filter_iterEventsB_progressCb]
          simpa using Nat.add_le_add_left (ih (attempts + 1)) 1
      | processing =>
          rw [pollLoopB_step_nonterminal statuses f attempts (Or.inr hst)]
          show ((iterEventsB statuses attempts ++ _).filter isStatusRead).length
            ≤ ((iterEventsB statuses attempts ++ _).filter isProgressCb).length
          rw [List.filter_append, List.filter_append, List.length_append, List.length_append,
            filter_iterEventsB_statusRead, filter_iterEventsB_progressCb]
          simpa using Nat.add_le_add_left (ih (attempts + 1)) 1
      | completed =>
          rw [pollLoopB_step_completed_events statuses f attempts hst]
          rw [List.filter_append, List.filter_append, List.length_append, List.length_append,
            filter_iterEventsB_statusRead, filter_iterEventsB_progressCb]
          simp [isStatusRead, isProgressCb, List.filter]
      | failed =>
          rw [pollLoopB_step_failed statuses f attempts hst]
          show ((iterEventsB statuses attempts).filter isStatusRead).length
            ≤ ((iterEventsB statuses attempts).filter isProgressCb).length
          rw [filter_iterEventsB_statusRead, filter_iterEventsB_progressCb]
          simp

theorem progressValues_append (l1 l2 : List PollEvent) :
    progressValues (l1 ++ l2) = progressValues l1 ++ progressValues l2 := by
  simp [progressValues]

theorem progressValues_iterEventsA (statuses : Nat → StatusResponseA) (attempts : Nat) :
    progressValues (iterEventsA statuses attempts)
      = [if (statuses attempts).progress.getD 0 = 0 then 10
         else (statuses attempts).progress.getD 0] := by
  simp [progressValues, iterEventsA, List.filterMap]

theorem progressValues_iterEventsB {α : Type} (statuses : Nat → StatusResponseB α)
    (attempts : Nat) :
    progressValues (iterEventsB statuses attempts)
      = [(statuses attempts).progress.getD (min (10 + ((attempts + 1) : ℚ) * 2) 90)] := by
  simp [progressValues, iterEventsB, List.filterMap]

theorem pollLoopA_progress_chain (statuses : Nat → StatusResponseA)
    (download : String → Option String) (p : Nat → ℚ)
    (hp : ∀ i, (statuses i).progress = some (p i))
    (hmono : ∀ i j, i ≤ j → p i ≤ p j)
    (hlb : ∀ i, 10 ≤ p i) (hub : ∀ i, p i ≤ 100) :
    ∀ fuel attempts (lb : ℚ), lb ≤ p attempts →
      List.Chain' (· ≤ ·) (lb :: progressValues (pollLoopA statuses download fuel attempts).1) ∧
      ∀ v ∈ progressValues (pollLoopA statuses download fuel attempts).1, 0 ≤ v ∧ v ≤ 100 := by
  intro fuel
  induction fuel with
  | zero =>
      intro attempts lb _
      constructor
      · simp [pollLoopA, progressValues]
      · intro v hv; exact absurd hv (List.not_mem_nil v)
  | succ f ih =>
      intro attempts lb hlbp
      have hcomputed : (if (statuses attempts).progress.getD 0 = 0 then (10 : ℚ)
          else (statuses attempts).progress.getD 0) = p attempts := by
        rw [hp attempts, Option.getD_some, if_neg]
        intro h0
        have := hlb attempts
        rw [h0] at this
        linarith
      have hbounds : 0 ≤ p attempts ∧ p attempts ≤ 100 := by
        constructor
        · have := hlb attempts; linarith
        · exact hub attempts
      cases hst : (statuses attempts).status with
      | pending =>
          rw [pollLoopA_step_nonterminal statuses download f attempts (Or.inl hst)]
          show List.Chain' (· ≤ ·)
              (lb :: progressValues (iterEventsA statuses attempts
                ++ (pollLoopA statuses download f (attempts + 1)).1)) ∧ _
          rw [progressValues_append, progressValues_iterEventsA, hcomputed]
          obtain ⟨ihc, ihm⟩ := ih (attempts + 1) (p attempts) (hmono attempts (attempts + 1) (by omega))
          constructor
          · exact List.chain'_cons.2 ⟨hlbp, ihc⟩
          · intro v hv
            rcases List.mem_cons.1 hv with h | h
            · exact h ▸ hbounds
            · exact ihm v h
      | processing =>
          rw [pollLoopA_step_nonterminal statuses download f attempts (Or.inr hst)]
          show List.Chain' (· ≤ ·)
              (lb :: progressValues (iterEventsA statuses attempts
                ++ (pollLoopA statuses download f (attempts + 1)).1)) ∧ _
          rw [progressValues_append, progressValues_iterEventsA, hcomputed]
          obtain ⟨ihc, ihm⟩ := ih (attempts + 1) (p attempts) (hmono attempts (attempts + 1) (by omega))
          constructor
          · exact List.chain'_cons.2 ⟨hlbp, ihc⟩
          · intro v hv
            rcases List.mem_cons.1 hv with h | h
            · exact h ▸ hbounds
            · exact ihm v h
      | completed =>
          have hev := pollLoopA_step_completed_events statuses download f attempts hst
          rw [hev, progressValues_append, progressValues_iterEventsA, hcomputed]
          have hone : progressValues [PollEvent.progressCb 100 "Complete!"] = [(100 : ℚ)] := rfl
          rw [hone]
          constructor
          · exact List.chain'_cons.2 ⟨hlbp, List.chain'_cons.2 ⟨hub attempts, List.chain'_singleton _⟩⟩
          · intro v hv
            rcases List.mem_cons.1 hv with h | h
            · exact h ▸ hbounds
            · have hv100 : v = 100 := by simpa using h
              subst hv100
              norm_num
      | failed =>
          rw [pollLoopA_step_failed statuses download f attempts hst]
          show List.Chain' (· ≤ ·) (lb :: progressValues (iterEventsA statuses attempts)) ∧ _
          rw [progressValues_iterEventsA, hcomputed]
          constructor
          · exact List.chain'_cons.2 ⟨hlbp, List.chain'_singleton _⟩
          · intro v hv
            simp only [List.mem_singleton] at hv
            exact hv ▸ hbounds

theorem pollLoopB_progress_chain {α : Type} (statuses : Nat → StatusResponseB α)
    (p : Nat → ℚ)
    (hp : ∀ i, (statuses i).progress = some (p i))
    (hmono : ∀ i j, i ≤ j → p i ≤ p j)
    (hlb : ∀ i, 10 ≤ p i) (hub : ∀ i, p i ≤ 100) :
    ∀ fuel attempts (lb : ℚ), lb ≤ p attempts →
      List.Chain' (· ≤ ·) (lb :: progressValues (pollLoopB statuses fuel attempts).1) ∧
      ∀ v ∈ progressValues (pollLoopB statuses fuel attempts).1, 0 ≤ v ∧ v ≤ 100 := by
  intro fuel
  induction fuel with
  | zero =>
      intro attempts lb _
      constructor
      · simp [pollLoopB, progressValues]
      · intro v hv; exact absurd hv (List.not_mem_nil v)
  | succ f ih =>
      intro attempts lb hlbp
      have hcomputed : (statuses attempts).progress.getD
          (min (10 + ((attempts + 1) : ℚ) * 2) 90) = p attempts := by
        rw [hp attempts, Option.getD_some]
      have hbounds : 0 ≤ p attempts ∧ p attempts ≤ 100 := by
        constructor
        · have := hlb attempts; linarith
        · exact hub attempts
      cases hst : (statuses attempts).status with
      | pending =>
          rw [pollLoopB_step_nonterminal statuses f attempts (Or.inl hst)]
          show List.Chain' (· ≤ ·)
              (lb :: progressValues (iterEventsB statuses attempts
                ++ (pollLoopB statuses f (attempts + 1)).1)) ∧ _
          rw [progressValues_append, progressValues_iterEventsB, hcomputed]
          obtain ⟨ihc, ihm⟩ := ih (attempts + 1) (p attempts) (hmono attempts (attempts + 1) (by omega))
          constructor
          · exact List.chain'_cons.2 ⟨hlbp, ihc⟩
          · intro v hv
            rcases List.mem_cons.1 hv with h | h
            · exact h ▸ hbounds
            · exact ihm v h
      | processing =>
          rw [pollLoopB_step_nonterminal statuses f attempts (Or.inr hst)]
          show List.Chain' (· ≤ ·)
              (lb :: progressValues (iterEventsB statuses attempts
                ++ (pollLoopB statuses f (attempts + 1)).1)) ∧ _
          rw [progressValues_append, progressValues_iterEventsB, hcomputed]
          obtain ⟨ihc, ihm⟩ := ih (attempts + 1) (p attempts) (hmono attempts (attempts + 1) (by omega))
          constructor
          · exact List.chain'_cons.2 ⟨hlbp, ihc⟩
          · intro v hv
            rcases List.mem_cons.1 hv with h | h
            · exact h ▸ hbounds
            · exact ihm v h
      | completed =>
          have hev := pollLoopB_step_completed_events statuses f attempts hst
          rw [hev, progressValues_append, progressValues_iterEventsB, hcomputed]
          have hone : progressValues [PollEvent.progressCb 100 "Complete!"] = [(100 : ℚ)] := rfl
          rw [hone]
          constructor
          · exact List.chain'_cons.2 ⟨hlbp, List.chain'_cons.2 ⟨hub attempts, List.chain'_singleton _⟩⟩
          · intro v hv
            rcases List.mem_cons.1 hv with h | h
            · exact h ▸ hbounds
            · have hv100 : v = 100 := by simpa using h
              subst hv100
              norm_num
      | failed =>
          rw [pollLoopB_step_failed statuses f attempts hst]
          show List.Chain' (· ≤ ·) (lb :: progressValues (iterEventsB statuses attempts)) ∧ _
          rw [progressValues_iterEventsB, hcomputed]
          constructor
          · exact List.chain'_cons.2 ⟨hlbp, List.chain'_singleton _⟩
          · intro v hv
            simp only [List.mem_singleton] at hv
            exact hv ▸ hbounds

theorem fetchA_unfold (jobId : String) (statuses : Nat → StatusResponseA)
    (download : String → Option String) :
    fetchEnrollmentDataA (some jobId) statuses download
      = (([PollEvent.progressCb 0 "Submitting request..."]
          ++ [PollEvent.progressCb 5 "Request submitted. Processing enrollment data..."])
          ++ (pollLoopA statuses download MAX_POLL_ATTEMPTS 0).1,
         (pollLoopA statuses download MAX_POLL_ATTEMPTS 0).2) := rfl

theorem fetchB_unfold {α : Type} (jobId : String) (statuses : Nat → StatusResponseB α) :
    fetchEnrollmentDataB none (some jobId) statuses
      = (([PollEvent.progressCb 0 "Submitting request..."]
          ++ [PollEvent.progressCb 5 "Request submitted. Processing enrollment data..."])
          ++ (pollLoopB statuses MAX_POLL_ATTEMPTS 0).1,
         (pollLoopB statuses MAX_POLL_ATTEMPTS 0).2) := rfl

/-! # Claim theorems -/

/-- Claim C1, counterexample: the codec round trip fails on a full
`EnrollmentRecord` whose `term` string carries leading whitespace — the
decoder trims every cell, so decoding the encoding of `untrimmedRecord` does
not reproduce it. -/
theorem recordsToCSV_roundtrip_fails_on_untrimmed :
    parseCSVToRecords (recordsToCSV [untrimmedRecord]) ≠ [untrimmedRecord] := by
  decide

/-- Claim C1 (amended): encoding a sequence of records with
`recordsToCSV` and decoding with `parseCSVToRecords` reproduces the
sequence exactly — including null and fractional numeric fields, `NaN`, and
string fields containing the delimiter or the quote character — provided
every record has the first record's distinct, header-safe field names
(non-empty, trim-invariant, comma- and newline-free, not a renamed CSV
label), numeric fields hold numbers with terminating decimal expansions
(integers, or fractions whose denominator divides a power of ten — every
number the program prints in plain decimal notation), `NaN` or `null`, the
other fields hold trim-invariant, newline-free strings, and no encoded row
is empty.  The empty sequence round-trips unconditionally. -/
theorem parseCSVToRecords_recordsToCSV_canonical :
    parseCSVToRecords (recordsToCSV ([] : List JRecord)) = [] ∧
    ∀ (r0 : JRecord) (rs : List JRecord),
      r0 ≠ [] →
      (r0.map Prod.fst).Nodup →
      (∀ k ∈ r0.map Prod.fst, goodKey k = true) →
      (∀ r ∈ r0 :: rs, r.map Prod.fst = r0.map Prod.fst) →
      (∀ r ∈ r0 :: rs, ∀ kv ∈ r, goodVal kv.1 kv.2 = true) →
      (∀ r ∈ r0 :: rs, encodedRow (r0.map Prod.fst) r ≠ []) →
      parseCSVToRecords (recordsToCSV (r0 :: rs)) = r0 :: rs :=
  ⟨rfl, roundtrip_main⟩

/-- Witness for C1's amended theorem: two concrete records with a
delimiter-bearing string, a quote-bearing string, an empty string, a null
and a negative fractional numeric field (`loss = -13/16`, printed
`-0.8125`) round-trip exactly. -/
theorem parseCSVToRecords_recordsToCSV_canonical_witness :
    (quotedRecord ≠ [] ∧ (quotedRecord.map Prod.fst).Nodup ∧
      (∀ k ∈ quotedRecord.map Prod.fst, goodKey k = true) ∧
      (∀ r ∈ [quotedRecord, quotedRecord2], r.map Prod.fst = quotedRecord.map Prod.fst) ∧
      (∀ r ∈ [quotedRecord, quotedRecord2], ∀ kv ∈ r, goodVal kv.1 kv.2 = true) ∧
      (∀ r ∈ [quotedRecord, quotedRecord2],
        encodedRow (quotedRecord.map Prod.fst) r ≠ [])) ∧
    parseCSVToRecords (recordsToCSV [quotedRecord, quotedRecord2])
      = [quotedRecord, quotedRecord2] :=
  ⟨⟨by decide, by decide, by decide, by decide, by decide, by decide⟩,
    parseCSVToRecords_recordsToCSV_canonical.2 quotedRecord [quotedRecord2]
      (by decide) (by decide) (by decide) (by decide) (by decide) (by decide)⟩

/-- Claim C2 (confirmed, `fetchEnrollmentData` of the job-polling client):
if the submit fast path is absent and every status read reports `pending` or
`processing`, the call performs exactly `MAX_POLL_ATTEMPTS` (150) status
reads, sleeps `POLL_INTERVAL_MS` (2000 ms) immediately before each read, and
then fails with the timeout message, which differs from the generic failure
message `"Job failed"`. -/
theorem fetchEnrollmentDataB_timeout {α : Type} (jobId : String)
    (statuses : Nat → StatusResponseB α)
    (hnt : ∀ i, (statuses i).status = JobStatus.pending ∨
      (statuses i).status = JobStatus.processing) :
    (fetchEnrollmentDataB none (some jobId) statuses).2
      = Except.error
          "Request timed out. Please try again with fewer terms or a more specific filter." ∧
    ((fetchEnrollmentDataB none (some jobId) statuses).1.filter isStatusRead).length
      = MAX_POLL_ATTEMPTS ∧
    (fetchEnrollmentDataB none (some jobId) statuses).1.filter isSleepOrRead
      = (List.range MAX_POLL_ATTEMPTS).flatMap
          (fun i => [PollEvent.sleep POLL_INTERVAL_MS, PollEvent.statusRead i]) ∧
    ("Request timed out. Please try again with fewer terms or a more specific filter."
      : String) ≠ "Job failed" := by
  have h := pollLoopB_nonterminal statuses hnt MAX_POLL_ATTEMPTS 0
  rw [fetchB_unfold]
  refine ⟨h.1, ?_, ?_, by decide⟩
  · rw [List.filter_append]
    have hpre : ([PollEvent.progressCb 0 "Submitting request...", PollEvent.progressCb 5
        "Request submitted. Processing enrollment data..."].filter isStatusRead) = [] := rfl
    simpa [hpre] using h.2.2
  · rw [List.filter_append]
    have hpre : (([PollEvent.progressCb 0 "Submitting request..."]
        ++ [PollEvent.progressCb 5
          "Request submitted. Processing enrollment data..."]).filter isSleepOrRead)
        = [] := rfl
    rw [hpre, List.nil_append, h.2.1]
    refine List.flatMap_congr ?_
    intro i _
    simp

/-- Witness for C2: with an environment that always answers `processing`,
the call times out with the exact message. -/
theorem fetchEnrollmentDataB_timeout_witness :
    (∀ i, (processingForeverB i).status = JobStatus.pending ∨
      (processingForeverB i).status = JobStatus.processing) ∧
    (fetchEnrollmentDataB none (some "job-1") processingForeverB).2
      = Except.error
          "Request timed out. Please try again with fewer terms or a more specific filter." :=
  ⟨fun _ => Or.inr rfl,
    (fetchEnrollmentDataB_timeout "job-1" processingForeverB (fun _ => Or.inr rfl)).1⟩

/-- Claim C3, counterexample: an empty line parses to the single-field list
`[""]`, so its column count is 1; yet on the input `"h\n\nx"`, whose header
has exactly one column, the empty middle line is still skipped — the
`line !== ''` guard fires before the column-count comparison, contradicting
the claim that rows are dropped only by column-count mismatch. -/
theorem parseCSVToRecords_skips_matching_empty_row :
    (parseCSVLine "").length = 1 ∧
    parseCSVToRecords (((("h" ++ "\n") ++ "\n") ++ "x" : String))
      = [[("h", Value.vstr "x")]] := by
  constructor <;> decide

/-- Claim C3 (amended): after trimming the payload and splitting on
newlines, the records are exactly the data lines that are non-empty AND
parse to the header's column count, each decoded in order; empty lines are
skipped by their own guard even when the column counts agree.  The concrete
conjunct keeps 3 of 4 data rows, dropping the one with a wrong column
count. -/
theorem parseCSVToRecords_row_filtering :
    (∀ (csvData l0 : String) (rest : List String),
      (splitCharC '\n' (jsTrim csvData).data).map (fun cs => (⟨cs⟩ : String))
        = l0 :: rest →
      rest ≠ [] → l0 ≠ "" →
      parseCSVToRecords csvData
        = (rest.filter
            (keepRow ((splitCharC ',' l0.data).map (fun cs => jsTrim ⟨cs⟩)))).map
            (fun l => decodeRow ((splitCharC ',' l0.data).map (fun cs => jsTrim ⟨cs⟩))
              (parseCSVLine l))) ∧
    (parseCSVToRecords
      ((((((((("h1,h2" ++ "\n") ++ "a,b") ++ "\n") ++ "c,d") ++ "\n") ++ "e,f")
        ++ "\n") ++ "g,h,i" : String))).length = 3 :=
  ⟨parseCSVToRecords_char, by decide⟩

/-- Witness for C3's amended theorem at the concrete payload `"a\nb"`. -/
theorem parseCSVToRecords_row_filtering_witness :
    ((splitCharC '\n' (jsTrim (("a" ++ "\n") ++ "b" : String)).data).map
        (fun cs => (⟨cs⟩ : String)) = "a" :: ["b"] ∧
      (["b"] : List String) ≠ [] ∧ ("a" : String) ≠ "") ∧
    parseCSVToRecords (("a" ++ "\n") ++ "b" : String)
      = (["b"].filter
          (keepRow ((splitCharC ',' ("a" : String).data).map (fun cs => jsTrim ⟨cs⟩)))).map
          (fun l => decodeRow ((splitCharC ',' ("a" : String).data).map (fun cs => jsTrim ⟨cs⟩))
            (parseCSVLine l)) :=
  ⟨⟨by decide, by decide, by decide⟩,
    parseCSVToRecords_row_filtering.1 (("a" ++ "\n") ++ "b") "a" ["b"]
      (by decide) (by decide) (by decide)⟩

/-- Claim C4, counterexample: a non-numeric cell in the numeric column
`enrollmentActual` is stored as `NaN` (`parseFloat` of non-numeric text) and
the row is kept, not rejected — the result is a non-empty record list. -/
theorem parseCSVToRecords_keeps_nan_row :
    parseCSVToRecords (("term,enrollmentActual" ++ "\n") ++ "x,abc" : String)
      = [[("term", Value.vstr "x"), ("enrollmentActual", Value.vnan)]] ∧
    parseCSVToRecords (("term,enrollmentActual" ++ "\n") ++ "x,abc" : String) ≠ [] := by
  constructor <;> decide

/-- Claim C4 (amended): for a numeric field, an empty (after trimming) cell
decodes to `null`; a parseable number decodes to that number; non-numeric
text decodes to `NaN` rather than being rejected.  Non-numeric fields pass
the trimmed text through.  The concrete conjunct shows all three numeric
behaviours in one parsed payload whose every row is kept. -/
theorem parseCSVToRecords_numeric_fields :
    (∀ (header value : String),
      numericFields.contains ((jsIndex headerMap header).getD header) = true →
      decodeField header value
        = ((jsIndex headerMap header).getD header,
            if jsTrim value = "" then Value.vnull
            else match parseFloatQ (jsTrim value) with
              | some q => Value.vnum q
              | none => Value.vnan)) ∧
    (∀ (header value : String),
      numericFields.contains ((jsIndex headerMap header).getD header) = false →
      decodeField header value
        = ((jsIndex headerMap header).getD header, Value.vstr (jsTrim value))) ∧
    parseCSVToRecords
      ((((((("term,enrollmentActual" ++ "\n") ++ "a,") ++ "\n") ++ "b,7") ++ "\n")
        ++ ",abc" : String))
      = [[("term", Value.vstr "a"), ("enrollmentActual", Value.vnull)],
         [("term", Value.vstr "b"), ("enrollmentActual", Value.vnum 7)],
         [("term", Value.vstr ""), ("enrollmentActual", Value.vnan)]] := by
  refine ⟨?_, ?_, by decide⟩
  · intro header value hnum
    rw [decodeField.eq_def]
    simp only [hnum, if_true]
  · intro header value hnum
    rw [decodeField.eq_def]
    simp only [hnum, Bool.false_eq_true, if_false]

/-- Witness for C4's amended theorem at the numeric field
`enrollmentActual` with the parseable cell `"12"`. -/
theorem parseCSVToRecords_numeric_fields_witness :
    (numericFields.contains
        ((jsIndex headerMap "enrollmentActual").getD "enrollmentActual") = true) ∧
    decodeField "enrollmentActual" "12"
      = ((jsIndex headerMap "enrollmentActual").getD "enrollmentActual",
          if jsTrim "12" = "" then Value.vnull
          else match parseFloatQ (jsTrim "12") with
            | some q => Value.vnum q
            | none => Value.vnan) :=
  ⟨by decide,
    parseCSVToRecords_numeric_fields.1 "enrollmentActual" "12" (by decide)⟩

/-- Claim C5 (confirmed): within each row emitted by `recordsToCSV` (one
row of `encodeCell`s per record, joined by commas under the first record's
headers), a string value containing a comma or a double quote is wrapped in
double quotes with embedded quotes doubled; any other string is emitted
verbatim; numbers are emitted unquoted (their digits never contain a comma
or a quote); `null` and missing values become the empty cell, never the
literal text `null`. -/
theorem recordsToCSV_cell_quoting :
    (∀ r0 rs, recordsToCSV (r0 :: rs)
      = (⟨joinSepC '\n'
          (joinSepC ',' ((r0.map Prod.fst).map String.data)
            :: (r0 :: rs).map (encodedRow (r0.map Prod.fst)))⟩ : String)) ∧
    (∀ s : String, (s.data.contains ',' || s.data.contains '"') = true →
      encodeCell (some (Value.vstr s)) = '"' :: escQuotes s.data ++ ['"']) ∧
    (∀ s : String, (s.data.contains ',' || s.data.contains '"') = false →
      encodeCell (some (Value.vstr s)) = s.data) ∧
    (∀ q : ℚ, encodeCell (some (Value.vnum q)) = jsNumToChars q ∧
      ',' ∉ jsNumToChars q ∧ '"' ∉ jsNumToChars q) ∧
    encodeCell (some Value.vnull) = [] ∧ encodeCell none = [] ∧
    (([] : Chars) ≠ ['n', 'u', 'l', 'l']) := by
  refine ⟨fun r0 rs => rfl, ?_, ?_, ?_, rfl, rfl, by decide⟩
  · intro s h
    rw [encodeCell, if_pos h]
  · intro s h
    rw [encodeCell, if_neg]
    rw [h]
    simp
  · intro q
    refine ⟨rfl, ?_, ?_⟩
    · intro hmem
      rcases jsNumToChars_mem q ',' hmem with h | h | h
      · exact absurd h (by decide)
      · exact absurd h (by decide)
      · exact absurd h (by decide)
    · intro hmem
      rcases jsNumToChars_mem q '"' hmem with h | h | h
      · exact absurd h (by decide)
      · exact absurd h (by decide)
      · exact absurd h (by decide)

/-- Witness for C5 at the comma-bearing string `"a,b"`. -/
theorem recordsToCSV_cell_quoting_witness :
    ((("a,b" : String).data.contains ',' || ("a,b" : String).data.contains '"') = true) ∧
    encodeCell (some (Value.vstr "a,b")) = '"' :: escQuotes ("a,b" : String).data ++ ['"'] :=
  ⟨by decide, recordsToCSV_cell_quoting.2.1 "a,b" (by decide)⟩

/-- Claim C6, counterexample: joining the encodings of the EMPTY field list
yields the empty line, which `parseCSVLine` parses to `[""]`, not back to
`[]` — the scanner always emits the final `current` field. -/
theorem parseCSVLine_empty_fields_list :
    parseCSVLine
        (⟨joinSepC ','
          (([] : List String).map (fun f => encodeCell (some (Value.vstr f))))⟩ : String)
      = [""] ∧ (([""] : List String) ≠ []) := by
  constructor <;> decide

/-- Claim C6 (amended): for a NON-EMPTY list of newline-free fields,
`parseCSVLine` applied to the comma-join of the encoder's cell encodings
returns exactly the original fields. -/
theorem parseCSVLine_inverts_encoding (fields : List String) (hne : fields ≠ [])
    (_hnl : ∀ f ∈ fields, f.data.contains '\n' = false) :
    parseCSVLine
        (⟨joinSepC ',' (fields.map (fun f => encodeCell (some (Value.vstr f))))⟩ : String)
      = fields := by
  have hmap : fields.map (fun f => encodeCell (some (Value.vstr f)))
      = (fields.map String.data).map escapeIfNeeded := by
    rw [List.map_map]
    exact List.map_congr_left fun f _ => encodeCell_eq (some (Value.vstr f))
  rw [parseCSVLine]
  show ((pclAux (⟨joinSepC ',' (fields.map (fun f => encodeCell (some (Value.vstr f))))⟩
    : String).data false).map (fun cs => (⟨cs⟩ : String))) = fields
  rw [hmap]
  rw [pclAux_encoded_fields (fields.map String.data) (by simpa using hne)]
  rw [List.map_map]
  have h : ∀ f ∈ fields, ((fun cs => (⟨cs⟩ : String)) ∘ String.data) f = id f :=
    fun f _ => rfl
  rw [List.map_congr_left h, List.map_id]

/-- Witness for C6's amended theorem on three concrete fields: one with a
comma, one with a quote, one empty. -/
theorem parseCSVLine_inverts_encoding_witness :
    ((["a,b", "c\"d", ""] : List String) ≠ [] ∧
      (∀ f ∈ (["a,b", "c\"d", ""] : List String), f.data.contains '\n' = false)) ∧
    parseCSVLine
        (⟨joinSepC ','
          ((["a,b", "c\"d", ""] : List String).map
            (fun f => encodeCell (some (Value.vstr f))))⟩ : String)
      = ["a,b", "c\"d", ""] :=
  ⟨⟨by decide, by decide⟩,
    parseCSVLine_inverts_encoding ["a,b", "c\"d", ""] (by decide) (by decide)⟩

/-- Claim C7, counterexample: with server progress 50 then 20 then
completion, the reported progress sequence is `0, 5, 50, 20, 20, 100` — it
decreases from 50 to 20, so the callback sequence is not monotonically
non-decreasing and no clamping reorders it. -/
theorem fetchEnrollmentDataA_progress_not_monotone :
    progressValues
        (fetchEnrollmentDataA (some "job-1") nonMonotoneStatuses (fun _ => none)).1
      = [0, 5, 50, 20, 20, 100] ∧
    ¬ List.Chain' (· ≤ ·)
        (progressValues
          (fetchEnrollmentDataA (some "job-1") nonMonotoneStatuses (fun _ => none)).1) := by
  have hval : progressValues
      (fetchEnrollmentDataA (some "job-1") nonMonotoneStatuses (fun _ => none)).1
      = [0, 5, 50, 20, 20, 100] := by decide
  refine ⟨hval, ?_⟩
  intro hchain
  rw [hval] at hchain
  norm_num [List.chain'_cons] at hchain

/-- Claim C7 (amended): in both client variants, IF the server reports a
progress value on every poll and those values are non-decreasing and lie in
`[10, 100]`, then the full progress-callback sequence (including the initial
0 and 5) is monotonically non-decreasing, every reported value lies in
`[0, 100]`, and a progress callback is invoked at least once per status
poll. -/
theorem fetchEnrollmentData_progress_monotone (jobId : String) (p : Nat → ℚ)
    (hmono : ∀ i j, i ≤ j → p i ≤ p j)
    (hlb : ∀ i, 10 ≤ p i) (hub : ∀ i, p i ≤ 100)
    (statusesA : Nat → StatusResponseA) (download : String → Option String)
    (hpA : ∀ i, (statusesA i).progress = some (p i))
    {α : Type} (statusesB : Nat → StatusResponseB α)
    (hpB : ∀ i, (statusesB i).progress = some (p i)) :
    (List.Chain' (· ≤ ·)
        (progressValues (fetchEnrollmentDataA (some jobId) statusesA download).1) ∧
      (∀ v ∈ progressValues (fetchEnrollmentDataA (some jobId) statusesA download).1,
        0 ≤ v ∧ v ≤ 100) ∧
      ((fetchEnrollmentDataA (some jobId) statusesA download).1.filter isStatusRead).length
        ≤ ((fetchEnrollmentDataA (some jobId) statusesA download).1.filter
            isProgressCb).length) ∧
    (List.Chain' (· ≤ ·)
        (progressValues (fetchEnrollmentDataB none (some jobId) statusesB).1) ∧
      (∀ v ∈ progressValues (fetchEnrollmentDataB none (some jobId) statusesB).1,
        0 ≤ v ∧ v ≤ 100) ∧
      ((fetchEnrollmentDataB none (some jobId) statusesB).1.filter isStatusRead).length
        ≤ ((fetchEnrollmentDataB none (some jobId) statusesB).1.filter
            isProgressCb).length) := by
  have h5 : (5 : ℚ) ≤ p 0 := le_trans (by norm_num) (hlb 0)
  have hA := pollLoopA_progress_chain statusesA download p hpA hmono hlb hub
    MAX_POLL_ATTEMPTS 0 5 h5
  have hB := pollLoopB_progress_chain statusesB p hpB hmono hlb hub
    MAX_POLL_ATTEMPTS 0 5 h5
  have hcA := pollLoopA_counts statusesA download MAX_POLL_ATTEMPTS 0
  have hcB := pollLoopB_counts statusesB MAX_POLL_ATTEMPTS 0
  rw [fetchA_unfold, fetchB_unfold]
  have hvA : progressValues (([PollEvent.progressCb 0 "Submitting request..."]
      ++ [PollEvent.progressCb 5 "Request submitted. Processing enrollment data..."])
      ++ (pollLoopA statusesA download MAX_POLL_ATTEMPTS 0).1)
      = 0 :: 5 :: progressValues (pollLoopA statusesA download MAX_POLL_ATTEMPTS 0).1 := rfl
  have hvB : progressValues (([PollEvent.progressCb 0 "Submitting request..."]
      ++ [PollEvent.progressCb 5 "Request submitted. Processing enrollment data..."])
      ++ (pollLoopB statusesB MAX_POLL_ATTEMPTS 0).1)
      = 0 :: 5 :: progressValues (pollLoopB statusesB MAX_POLL_ATTEMPTS 0).1 := rfl
  refine ⟨⟨?_, ?_, ?_⟩, ?_, ?_, ?_⟩
  · show List.Chain' (· ≤ ·) (progressValues _)
    rw [hvA, List.chain'_cons]
    exact ⟨by norm_num, hA.1⟩
  · intro v hmem
    rw [show progressValues _ = 0 :: 5 :: progressValues
      (pollLoopA statusesA download MAX_POLL_ATTEMPTS 0).1 from hvA] at hmem
    rcases List.mem_cons.mp hmem with h0 | hmem
    · subst h0; norm_num
    rcases List.mem_cons.mp hmem with h0 | hmem
    · subst h0; norm_num
    exact hA.2 v hmem
  · show (List.filter isStatusRead (_ ++ _)).length ≤ (List.filter isProgressCb (_ ++ _)).length
    have e1 : List.filter isStatusRead (([PollEvent.progressCb 0 "Submitting request..."]
        ++ [PollEvent.progressCb 5 "Request submitted. Processing enrollment data..."])
        ++ (pollLoopA statusesA download MAX_POLL_ATTEMPTS 0).1)
        = List.filter isStatusRead (pollLoopA statusesA download MAX_POLL_ATTEMPTS 0).1 := rfl
    have e2 : List.filter isProgressCb (([PollEvent.progressCb 0 "Submitting request..."]
        ++ [PollEvent.progressCb 5 "Request submitted. Processing enrollment data..."])
        ++ (pollLoopA statusesA download MAX_POLL_ATTEMPTS 0).1)
        = PollEvent.progressCb 0 "Submitting request..."
          :: PollEvent.progressCb 5 "Request submitted. Processing enrollment data..."
          :: List.filter isProgressCb (pollLoopA statusesA download MAX_POLL_ATTEMPTS 0).1 := rfl
    rw [e1, e2, List.length_cons, List.length_cons]
    omega
  · show List.Chain' (· ≤ ·) (progressValues _)
    rw [hvB, List.chain'_cons]
    exact ⟨by norm_num, hB.1⟩
  · intro v hmem
    rw [show progressValues _ = 0 :: 5 :: progressValues
      (pollLoopB statusesB MAX_POLL_ATTEMPTS 0).1 from hvB] at hmem
    rcases List.mem_cons.mp hmem with h0 | hmem
    · subst h0; norm_num
    rcases List.mem_cons.mp hmem with h0 | hmem
    · subst h0; norm_num
    exact hB.2 v hmem
  · show (List.filter isStatusRead (_ ++ _)).length ≤ (List.filter isProgressCb (_ ++ _)).length
    have e1 : List.filter isStatusRead (([PollEvent.progressCb 0 "Submitting request..."]
        ++ [PollEvent.progressCb 5 "Request submitted. Processing enrollment data..."])
        ++ (pollLoopB statusesB MAX_POLL_ATTEMPTS 0).1)
        = List.filter isStatusRead (pollLoopB statusesB MAX_POLL_ATTEMPTS 0).1 := rfl
    have e2 : List.filter isProgressCb (([PollEvent.progressCb 0 "Submitting request..."]
        ++ [PollEvent.progressCb 5 "Request submitted. Processing enrollment data..."])
        ++ (pollLoopB statusesB MAX_POLL_ATTEMPTS 0).1)
        = PollEvent.progressCb 0 "Submitting request..."
          :: PollEvent.progressCb 5 "Request submitted. Processing enrollment data..."
          :: List.filter isProgressCb (pollLoopB statusesB MAX_POLL_ATTEMPTS 0).1 := rfl
    rw [e1, e2, List.length_cons, List.length_cons]
    omega

/-- Witness for C7's amended theorem with constant server progress 42 in
both variants. -/
theorem fetchEnrollmentData_progress_monotone_witness :
    ((∀ i j : Nat, i ≤ j → (42 : ℚ) ≤ 42) ∧ (∀ _i : Nat, (10 : ℚ) ≤ 42) ∧
      (∀ _i : Nat, (42 : ℚ) ≤ 100) ∧
      (∀ i, (steadyProgressA i).progress = some (42 : ℚ)) ∧
      (∀ i, (steadyProgressB i).progress = some (42 : ℚ))) ∧
    List.Chain' (· ≤ ·)
      (progressValues
        (fetchEnrollmentDataA (some "job-1") steadyProgressA (fun _ => none)).1) :=
  ⟨⟨fun _ _ _ => le_refl 42, fun _ => by norm_num, fun _ => by norm_num,
      fun _ => rfl, fun _ => rfl⟩,
    (fetchEnrollmentData_progress_monotone "job-1" (fun _ => 42)
      (fun _ _ _ => le_refl 42) (fun _ => by norm_num) (fun _ => by norm_num)
      steadyProgressA (fun _ => none) (fun _ => rfl)
      steadyProgressB (fun _ => rfl)).1.1⟩

/-- Claim C8 (confirmed): in both client variants, if the first `failed`
status arrives at poll index `k` within the attempt budget (all earlier
polls reporting `pending`/`processing`), the call rejects with the stored
server message when it is present and non-empty, and with the fallback
`"Job failed"` otherwise — `jsOrString` is the JS `||` on the optional
message. -/
theorem fetchEnrollmentData_failed_error {α : Type} (jobId : String)
    (statusesA : Nat → StatusResponseA) (download : String → Option String)
    (kA : Nat) (hkA : kA < MAX_POLL_ATTEMPTS)
    (hbA : ∀ i, i < kA → (statusesA i).status = JobStatus.pending ∨
      (statusesA i).status = JobStatus.processing)
    (hfA : (statusesA kA).status = JobStatus.failed)
    (statusesB : Nat → StatusResponseB α) (kB : Nat) (hkB : kB < MAX_POLL_ATTEMPTS)
    (hbB : ∀ i, i < kB → (statusesB i).status = JobStatus.pending ∨
      (statusesB i).status = JobStatus.processing)
    (hfB : (statusesB kB).status = JobStatus.failed) :
    (fetchEnrollmentDataA (some jobId) statusesA download).2
      = Except.error (jsOrString (statusesA kA).error_message "Job failed") ∧
    (fetchEnrollmentDataB none (some jobId) statusesB).2
      = Except.error (jsOrString (statusesB kB).message "Job failed") := by
  constructor
  · rw [fetchA_unfold]
    have h := pollLoopA_failed_at statusesA download kA MAX_POLL_ATTEMPTS 0 hkA
      (fun i hi => by simpa using hbA i hi) (by simpa using hfA)
    simpa using h
  · rw [fetchB_unfold]
    have h := pollLoopB_failed_at statusesB kB MAX_POLL_ATTEMPTS 0 hkB
      (fun i hi => by simpa using hbB i hi) (by simpa using hfB)
    simpa using h

/-- Witness for C8: servers failing at the very first poll with the stored
message "upstream data source unavailable"; both variants surface it. -/
theorem fetchEnrollmentData_failed_error_witness :
    (0 < MAX_POLL_ATTEMPTS ∧
      (failedNowA 0).status = JobStatus.failed ∧
      (failedNowB 0).status = JobStatus.failed) ∧
    (fetchEnrollmentDataA (some "job-1") failedNowA (fun _ => none)).2
      = Except.error "upstream data source unavailable" ∧
    (fetchEnrollmentDataB none (some "job-1") failedNowB).2
      = Except.error "upstream data source unavailable" :=
  ⟨⟨by decide, rfl, rfl⟩,
    fetchEnrollmentData_failed_error "job-1" failedNowA (fun _ => none) 0 (by decide)
      (fun i hi => absurd hi (Nat.not_lt_zero i)) rfl
      failedNowB 0 (by decide) (fun i hi => absurd hi (Nat.not_lt_zero i)) rfl⟩

/-- Claim C9 (confirmed): the processing queue is created with a dead-letter
queue whose redrive policy has `maxReceiveCount` 3, and the Lambda event
source consumes the queue with `batchSize` 1 — for every deployment
environment. -/
theorem processingQueue_redrive_and_batch (environment : String) :
    (∃ rp : RedrivePolicy, (createProcessingQueue environment).deadLetterQueue = some rp ∧
      rp.maxReceiveCount = 3) ∧
    dataProcessingEventSource.batchSize = 1 :=
  ⟨⟨⟨⟨"gatech-enrollment-dlq-" ++ environment, 14⟩, 3⟩, rfl, rfl⟩, rfl⟩

/-- Witness for C9 at the environment `"prod"`. -/
theorem processingQueue_redrive_and_batch_witness :
    (∃ rp : RedrivePolicy, (createProcessingQueue "prod").deadLetterQueue = some rp ∧
      rp.maxReceiveCount = 3) ∧
    dataProcessingEventSource.batchSize = 1 :=
  processingQueue_redrive_and_batch "prod"

/-- Claim C10 (confirmed): `recordsToCSV` on an empty record list returns
the empty string — no header row is emitted. -/
theorem recordsToCSV_empty : recordsToCSV ([] : List JRecord) = "" := rfl
